import Mathlib

/-!
# bakito/emoji: the search URL, the extractor, the table rows and the driver

A shallow embedding of `main.go`.  Go strings are modelled by Lean strings, that
is by sequences of Unicode code points; their Go length `len` is the number of
bytes of their UTF-8 encoding.  The standard-library and third-party functions
that `main.go` calls are modelled after their Go implementations, each in a
namespace named after its package.
-/

set_option autoImplicit false

/-! ## Package `unicode` -/

namespace unicode

/-- The Go constant `unicode.MaxASCII`. -/
def MaxASCII : Nat := 0x7F

/-- The Go constant `unicode.MaxLatin1`. -/
def MaxLatin1 : Nat := 0xFF

/-- The ranges of the Go table `unicode.White_Space`, as pairs `(Lo, Hi)`. -/
def White_Space : List (Nat × Nat) :=
  [(0x0009, 0x000d), (0x0020, 0x0020), (0x0085, 0x0085), (0x00a0, 0x00a0),
   (0x1680, 0x1680), (0x2000, 0x200a), (0x2028, 0x2029), (0x202f, 0x202f),
   (0x205f, 0x205f), (0x3000, 0x3000)]

/-- Go `unicode.IsSpace`: a switch over the Latin-1 spaces, the table
`White_Space` above Latin-1. -/
def IsSpace (r : Char) : Bool :=
  if r.toNat ≤ MaxLatin1 then
    r = '\t' || r = '\n' || r.toNat = 0x0B || r.toNat = 0x0C || r = '\r' || r = ' '
      || r.toNat = 0x85 || r.toNat = 0xA0
  else
    White_Space.any fun p => p.1 ≤ r.toNat && r.toNat ≤ p.2

/-- Go `unicode.ToLower`.  The ASCII branch is the code of the function; the
lower-case mapping of the table `unicode.CaseRanges`, which the other branch
looks up, is the parameter `caseRanges`. -/
def ToLower (caseRanges : Char → Char) (r : Char) : Char :=
  if r.toNat ≤ MaxASCII then
    if 'A'.toNat ≤ r.toNat ∧ r.toNat ≤ 'Z'.toNat then Char.ofNat (r.toNat + ('a'.toNat - 'A'.toNat))
    else r
  else caseRanges r

end unicode

/-! ## Package `unicode/utf8` -/

namespace utf8

/-- The Go constant `utf8.RuneSelf`: code points below it are one byte. -/
def RuneSelf : Nat := 0x80

/-- Go `utf8.RuneLen`, on a valid code point: the number of bytes of its
encoding. -/
def RuneLen (r : Char) : Nat :=
  if r.toNat < 0x80 then 1
  else if r.toNat < 0x800 then 2
  else if r.toNat < 0x10000 then 3
  else 4

/-- Go `utf8.AppendRune` on an empty buffer: the bytes that encode `r`. -/
def EncodeRune (r : Char) : List Nat :=
  let i := r.toNat
  if i < 0x80 then [i]
  else if i < 0x800 then [0xC0 ||| ((i >>> 6) % 256), 0x80 ||| ((i % 256) &&& 0x3F)]
  else if i < 0x10000 then
    [0xE0 ||| ((i >>> 12) % 256), 0x80 ||| (((i >>> 6) % 256) &&& 0x3F),
     0x80 ||| ((i % 256) &&& 0x3F)]
  else
    [0xF0 ||| ((i >>> 18) % 256), 0x80 ||| (((i >>> 12) % 256) &&& 0x3F),
     0x80 ||| (((i >>> 6) % 256) &&& 0x3F), 0x80 ||| ((i % 256) &&& 0x3F)]

/-- Go `utf8.RuneCountInString` on a well-formed string: its number of code
points. -/
def RuneCountInString (s : String) : Nat := s.data.length

end utf8

/-- The bytes of a Go string: the concatenated encodings of its code points. -/
def bytes (s : String) : List Nat := s.data.flatMap utf8.EncodeRune

/-- The Go builtin `len` on a string: its number of bytes. -/
def len (s : String) : Nat := (s.data.map utf8.RuneLen).sum

/-! ## Package `strings` -/

namespace strings

/-- The Go table `asciiSpace` of package `strings`. -/
def asciiSpace (c : Char) : Bool :=
  c = '\t' || c = '\n' || c.toNat = 0x0B || c.toNat = 0x0C || c = '\r' || c = ' '

/-- Go `strings.TrimLeftFunc`, on the code points of the string. -/
def trimLeftFunc (f : Char → Bool) : List Char → List Char
  | [] => []
  | c :: cs => if f c then trimLeftFunc f cs else c :: cs

/-- Go `strings.TrimRightFunc`, on the code points of the string taken from the
last to the first. -/
def trimRightRev (f : Char → Bool) : List Char → List Char
  | [] => []
  | c :: cs => if f c then trimRightRev f cs else c :: cs

/-- Go `strings.TrimRightFunc`. -/
def trimRightFunc (f : Char → Bool) (s : List Char) : List Char :=
  (trimRightRev f s.reverse).reverse

/-- Go `strings.TrimFunc`: `TrimRightFunc(TrimLeftFunc(s, f), f)`. -/
def trimFunc (f : Char → Bool) (s : List Char) : List Char :=
  trimRightFunc f (trimLeftFunc f s)

/-- The second loop of Go `strings.TrimSpace`, which moves `stop` down from the
end; the argument is `s[start:]` reversed.  A non-ASCII byte at the end hands
over to `TrimRightFunc(s[start:stop], unicode.IsSpace)`. -/
def trimSpaceStop : List Char → List Char
  | [] => []
  | c :: cs =>
    if utf8.RuneSelf ≤ c.toNat then trimRightRev unicode.IsSpace (c :: cs)
    else if asciiSpace c then trimSpaceStop cs
    else c :: cs

/-- The first loop of Go `strings.TrimSpace`, which moves `start` up from the
beginning, followed by the second.  A non-ASCII byte at the start hands over to
`TrimFunc(s[start:], unicode.IsSpace)`. -/
def trimSpaceStart : List Char → List Char
  | [] => []
  | c :: cs =>
    if utf8.RuneSelf ≤ c.toNat then trimFunc unicode.IsSpace (c :: cs)
    else if asciiSpace c then trimSpaceStart cs
    else (trimSpaceStop (c :: cs).reverse).reverse

/-- Go `strings.TrimSpace`. -/
def TrimSpace (s : String) : String := ⟨trimSpaceStart s.data⟩

/-- Go `strings.ToLower`: strings of ASCII only take the byte loop that adds
`'a' - 'A'` to the upper-case letters, the others `Map(unicode.ToLower, s)`. -/
def ToLower (caseRanges : Char → Char) (s : String) : String :=
  if s.data.all (fun c => c.toNat < utf8.RuneSelf) then
    ⟨s.data.map fun c =>
      if 'A'.toNat ≤ c.toNat ∧ c.toNat ≤ 'Z'.toNat then Char.ofNat (c.toNat + ('a'.toNat - 'A'.toNat))
      else c⟩
  else ⟨s.data.map (unicode.ToLower caseRanges)⟩

/-- Whether `p` is a prefix of `s` (Go `strings.HasPrefix`). -/
def startsWith : List Char → List Char → Bool
  | [], _ => true
  | _ :: _, [] => false
  | p :: ps, c :: cs => p = c && startsWith ps cs

/-- The loop of Go `strings.Replace` with `n < 0` and a non-empty `old`: at each
position where `old` occurs in what is left, `new` is written and the `skip`
further code points of the occurrence are passed over. -/
def replaceFrom (old new : List Char) : Nat → List Char → List Char
  | _, [] => []
  | skip + 1, _ :: cs => replaceFrom old new skip cs
  | 0, c :: cs =>
    if startsWith old (c :: cs) then new ++ replaceFrom old new (old.length - 1) cs
    else c :: replaceFrom old new 0 cs

/-- Go `strings.ReplaceAll(s, old, new)`, which is `Replace(s, old, new, -1)`:
`s` itself when `old == new`; with an empty `old`, `new` is inserted before the
first code point and after every code point. -/
def ReplaceAll (s old new : String) : String :=
  if old = new then s
  else if old.data = [] then ⟨new.data ++ s.data.flatMap fun c => c :: new.data⟩
  else ⟨replaceFrom old.data new.data 0 s.data⟩

/-- Go `strings.Join`. -/
def Join (elems : List String) (sep : String) : String :=
  match elems with
  | [] => ""
  | [e] => e
  | e :: es => es.foldl (fun b s => b ++ sep ++ s) e

end strings

/-! ## Package `net/url` -/

namespace url

/-- Go `shouldEscape(c, encodePathSegment)` of package `net/url`: letters,
digits and `- _ . ~` stay, of the reserved characters `/ ; , ?` are escaped and
`$ & + : = @` stay, every other byte is escaped. -/
def shouldEscape (c : Nat) : Bool :=
  if ('a'.toNat ≤ c ∧ c ≤ 'z'.toNat) ∨ ('A'.toNat ≤ c ∧ c ≤ 'Z'.toNat)
      ∨ ('0'.toNat ≤ c ∧ c ≤ '9'.toNat) then false
  else if c = '-'.toNat ∨ c = '_'.toNat ∨ c = '.'.toNat ∨ c = '~'.toNat then false
  else if c = '$'.toNat ∨ c = '&'.toNat ∨ c = '+'.toNat ∨ c = ','.toNat ∨ c = '/'.toNat
      ∨ c = ':'.toNat ∨ c = ';'.toNat ∨ c = '='.toNat ∨ c = '?'.toNat ∨ c = '@'.toNat then
    c = '/'.toNat ∨ c = ';'.toNat ∨ c = ','.toNat ∨ c = '?'.toNat
  else true

/-- The Go constant `upperhex`. -/
def upperhex : List Char := "0123456789ABCDEF".data

/-- What the second loop of Go `escape` writes for the byte `c`: `%` and the two
hexadecimal digits `upperhex[c>>4]`, `upperhex[c&15]` when the byte is
escaped, the byte itself otherwise. -/
def escapeByte (c : Nat) : List Char :=
  if shouldEscape c then ['%', upperhex.getD (c >>> 4) '?', upperhex.getD (c &&& 15) '?']
  else [Char.ofNat c]

/-- Go `url.PathEscape`, which is `escape(s, encodePathSegment)`: the string
itself when no byte of it is escaped, the escaped bytes otherwise. -/
def PathEscape (s : String) : String :=
  if (bytes s).all (fun c => !shouldEscape c) then s
  else ⟨(bytes s).flatMap escapeByte⟩

end url

/-- A Go `error` value, given by the message its method `Error` returns. -/
structure GoError where
  /-- The message of the error. -/
  Error : String
deriving DecidableEq, Repr

/-! ## Package `fmt` -/

namespace fmt

/-- An operand of a formatting call: a `string`, an `int` or an `error`. -/
inductive Arg where
  | str (s : String)
  | int (n : Int)
  | err (e : GoError)
deriving DecidableEq, Repr

/-- The flags of the Go printer state `fmt.fmt` that the verbs below read. -/
structure Flags where
  /-- The flag `0`. -/
  zero : Bool
  /-- Whether a width stands in the directive. -/
  widPresent : Bool
  /-- The width. -/
  wid : Nat
deriving DecidableEq, Repr

/-- The base-10 loop of Go `fmtInteger`, which writes the digits of `u` from the
last to the first: `for u >= 10 { next := u / 10; buf[i] = '0' + u - next*10; u
= next }`, then `buf[i] = digits[u]`.  The first argument bounds the number of
turns. -/
def fmtDigits : Nat → Nat → List Char → List Char
  | 0, u, buf => Char.ofNat ('0'.toNat + u) :: buf
  | fuel + 1, u, buf =>
    if 10 ≤ u then fmtDigits fuel (u / 10) (Char.ofNat ('0'.toNat + (u - u / 10 * 10)) :: buf)
    else Char.ofNat ('0'.toNat + u) :: buf

/-- Go `(*fmt).fmtInteger` in base 10 for a signed operand, with the flag `0`
and a width: the digits, zeros on the left up to the precision that the flag
`0` takes from the width (one less for a negative number), the sign, and
blanks on the left up to the width. -/
def fmtInteger (f : Flags) (a : Int) : List Char :=
  let negative := decide (a < 0)
  let u := a.natAbs
  let prec := if f.zero && f.widPresent then (if negative then f.wid - 1 else f.wid) else 0
  let digits := fmtDigits u u []
  let buf := List.replicate (prec - digits.length) '0' ++ digits
  let buf := if negative then '-' :: buf else buf
  if !f.widPresent || f.wid = 0 then buf
  else List.replicate (f.wid - buf.length) ' ' ++ buf

/-- Go `(*fmt).padString` without the flag `-`: the string, with blanks (zeros
under the flag `0`) on the left up to the width, counted in code points. -/
def padString (f : Flags) (s : List Char) : List Char :=
  if !f.widPresent || f.wid = 0 then s
  else List.replicate (f.wid - s.length) (if f.zero then '0' else ' ') ++ s

/-- Go `(*pp).printArg` for the verbs `%s`, `%d` and `%v`: a string and the
message of an error under `%s` and `%v`, an integer under `%d` and `%v`.  The
other pairs of operand and verb are outside the model. -/
def printArg (f : Flags) (x : Arg) (verb : Char) : Option (List Char) :=
  match x with
  | .str s => if verb = 's' ∨ verb = 'v' then some (padString f s.data) else none
  | .int n => if verb = 'd' ∨ verb = 'v' then some (fmtInteger f n) else none
  | .err e => if verb = 's' ∨ verb = 'v' then some (padString f e.Error.data) else none

/-- Where Go `(*pp).doPrintf` stands in the format: in plain text, among the
flags after a `%`, or in the digits of the width. -/
inductive Scan where
  | text
  | flags (zero : Bool)
  | width (zero : Bool) (wid : Nat)
deriving DecidableEq, Repr

/-- Go `(*pp).doPrintf` on directives made of the flag `0`, a width and one of
the verbs `%s`, `%d`, `%v`, `%%`: plain text is copied, each verb formats the
next operand.  A directive outside the model, a missing operand, an operand
left over and a format that ends inside a directive give `none`. -/
def doPrintf : List Char → Scan → List Arg → Option (List Char)
  | [], .text, [] => some []
  | [], _, _ => none
  | c :: cs, .text, a =>
    if c = '%' then doPrintf cs (.flags false) a
    else (doPrintf cs .text a).map (c :: ·)
  | c :: cs, .flags zero, a =>
    if c = '0' then doPrintf cs (.flags true) a
    else if '1'.toNat ≤ c.toNat ∧ c.toNat ≤ '9'.toNat then
      doPrintf cs (.width zero (c.toNat - '0'.toNat)) a
    else if c = '%' then (doPrintf cs .text a).map ('%' :: ·)
    else
      match a with
      | [] => none
      | x :: a =>
        (printArg ⟨zero, false, 0⟩ x c).bind fun out => (doPrintf cs .text a).map (out ++ ·)
  | c :: cs, .width zero wid, a =>
    if '0'.toNat ≤ c.toNat ∧ c.toNat ≤ '9'.toNat then
      (if 1000000 < wid * 10 + (c.toNat - '0'.toNat) then none
       else doPrintf cs (.width zero (wid * 10 + (c.toNat - '0'.toNat))) a)
    else if c = '%' then (doPrintf cs .text a).map ('%' :: ·)
    else
      match a with
      | [] => none
      | x :: a =>
        (printArg ⟨zero, true, wid⟩ x c).bind fun out => (doPrintf cs .text a).map (out ++ ·)

/-- Go `fmt.Sprintf`, `none` on a format outside the model of `doPrintf`. -/
def Sprintf? (format : String) (a : List Arg) : Option String :=
  (doPrintf format.data .text a).map String.mk

/-- Go `fmt.Sprintf` on a format and operands that the model covers. -/
def Sprintf (format : String) (a : List Arg) (h : (Sprintf? format a).isSome = true) : String :=
  (Sprintf? format a).get h

end fmt


/-- Go `fmt.Errorf` on a format without `%w`: the error whose message is the
formatted text. -/
def fmt.Errorf (format : String) (a : List fmt.Arg) (h : (fmt.Sprintf? format a).isSome = true) :
    GoError :=
  ⟨fmt.Sprintf format a h⟩

/-- Go `fmt.Println` on strings: the operands with a blank between them, then a
newline. -/
def fmt.Sprintln (a : List String) : String := strings.Join a " " ++ "\n"

/-! ## Package `golang.org/x/net/html` and package `goquery` -/

namespace goquery

/-- A node of a parsed HTML document (`html.Node`): a text node with its data, a
comment, or an element with its tag, the tokens of its `class` attribute and its
children in document order. -/
inductive Node where
  | text (data : String)
  | comment (data : String)
  | element (tag : String) (classes : List String) (children : List Node)
deriving Repr

mutual
/-- The recursive function of Go `(*Selection).Text`: the data of the text nodes
below a node, in document order. -/
def Node.Text : Node → String
  | .text data => data
  | .comment _ => ""
  | .element _ _ children => Node.TextAll children
/-- The loop of `Text` over the children of a node. -/
def Node.TextAll : List Node → String
  | [] => ""
  | n :: ns => Node.Text n ++ Node.TextAll ns
end

mutual
/-- The elements below and including a node that the selector `.emoji-ctn
.emoji` matches (`cascadia` `MatchAll` with its descendant combinator), in
document order: an element with the class `emoji` matches when one of its
ancestors has the class `emoji-ctn`.  `inCtn` tells whether an ancestor of the
node has that class. -/
def Node.matchAll (inCtn : Bool) : Node → List Node
  | .text _ => []
  | .comment _ => []
  | .element tag classes children =>
    (if "emoji" ∈ classes ∧ inCtn = true then [Node.element tag classes children] else [])
      ++ Node.matchAllList (inCtn || decide ("emoji-ctn" ∈ classes)) children
/-- The loop of `matchAll` over the children of a node. -/
def Node.matchAllList (inCtn : Bool) : List Node → List Node
  | [] => []
  | n :: ns => Node.matchAll inCtn n ++ Node.matchAllList inCtn ns
end

/-- A parsed document: the children of its document node. -/
structure Document where
  /-- The children of the document node. -/
  children : List Node
deriving Repr

/-- Go `doc.Find(".emoji-ctn .emoji")`: the matches among the descendants of the
document node, in document order. -/
def Document.Find (doc : Document) : List Node := Node.matchAllList false doc.children

end goquery

/-! ## Package `color` -/

namespace color

/-- The attributes of package `color` that `main.go` uses. -/
inductive Attribute where
  | Bold
  | FgRed
  | FgYellow
  | FgCyan
  | FgHiBlack
  | FgHiGreen
deriving DecidableEq, Repr

end color

/-! ## The program -/

namespace EmojiDB

/-- The Go constant `maxEmojis`. -/
def maxEmojis : Nat := 50

/-- The Go constant `columnsPerRow`. -/
def columnsPerRow : Nat := 5

/-- The Go constant `defaultEmojiURL`. -/
def defaultEmojiURL : String := "https://emojidb.org"

/-- The Go type `EmojiClient`. -/
structure EmojiClient where
  /-- The base URL of the site. -/
  BaseURL : String
deriving DecidableEq, Repr

/-- The Go function `NewClient`. -/
def NewClient : EmojiClient := { BaseURL := defaultEmojiURL }

/-- An HTTP response, as far as `Search` reads it. -/
structure Response where
  /-- The status code. -/
  StatusCode : Int
  /-- The body. -/
  Body : String
deriving DecidableEq, Repr

/-- What the program does not decide itself: the lower-case table of package
`unicode`, the answer of `http.Get` to a URL, the result of parsing a body with
`goquery.NewDocumentFromReader`, and the text `(*Color).wrap` of package `color`
makes of a text under an attribute (the text between two escape sequences, or
the text itself when colours are off). -/
structure World where
  /-- The lower-case mapping of `unicode.CaseRanges`. -/
  caseRanges : Char → Char
  /-- The outcome of `http.Get`. -/
  Get : String → Except GoError Response
  /-- The outcome of `goquery.NewDocumentFromReader`. -/
  NewDocumentFromReader : String → Except GoError goquery.Document
  /-- The text under a colour attribute. -/
  wrap : color.Attribute → String → String

/-- What the program does to the outside, in the order it does it. -/
inductive Event where
  /-- Text written to the standard output under colour attributes. -/
  | print (attrs : List color.Attribute) (text : String)
  /-- A GET request. -/
  | get (url : String)
  /-- A table rendered to the standard output: its header, its rows (the
  alignment of the cells, which the configuration of the table sets, is left
  out). -/
  | table (header : List String) (data : List (List String))
deriving DecidableEq, Repr

/-- The Go method `(*EmojiClient).buildSearchURL`. -/
def buildSearchURL (w : World) (c : EmojiClient) (query : String) : String :=
  let formattedQuery :=
    strings.ReplaceAll (strings.ToLower w.caseRanges (strings.TrimSpace query)) " " "-"
  fmt.Sprintf "%s/%s-emojis?utm_source=user_search"
    [.str c.BaseURL, .str (url.PathEscape formattedQuery)] (by rfl)

/-- The body of the function that `Search` passes to `Each`: `emojis` is the
list collected so far, `text` the text `s.Text()` of the matched node. -/
def eachEmoji (emojis : List String) (text : String) : List String :=
  if emojis.length ≥ maxEmojis then emojis
  else
    let emoji := strings.TrimSpace text
    if emoji ≠ "" ∧ len emoji < 5 then emojis ++ [emoji] else emojis

/-- The loop `doc.Find(..).Each(..)` of `Search` on the texts of the matched
nodes, starting from the nil slice. -/
def collect (texts : List String) : List String := texts.foldl eachEmoji []

/-- The Go method `(*EmojiClient).Search`: the pair it returns (a nil slice is
the empty list, a nil error is `none`) and the requests it makes. -/
def Search (w : World) (c : EmojiClient) (query : String) :
    (List String × Option GoError) × List Event :=
  let searchURL := buildSearchURL w c query
  match w.Get searchURL with
  | .error err => (([], some err), [Event.get searchURL])
  | .ok resp =>
    if resp.StatusCode ≠ 200 then
      (([], some (fmt.Errorf "failed to fetch emojis: status %d" [.int resp.StatusCode] (by rfl))),
        [Event.get searchURL])
    else
      match w.NewDocumentFromReader resp.Body with
      | .error err => (([], some err), [Event.get searchURL])
      | .ok doc => ((collect (doc.Find.map goquery.Node.Text), none), [Event.get searchURL])

/-- The Go slice expression `s[i:j]`. -/
def slice (s : List String) (i j : Nat) : List String := (s.take j).drop i

/-- Go `color.HiBlackString`: the formatted text under the attribute
`FgHiBlack`. -/
def HiBlackString (w : World) (format : String) (a : List fmt.Arg)
    (h : (fmt.Sprintf? format a).isSome = true) : String :=
  w.wrap .FgHiBlack (fmt.Sprintf format a h)

/-- The inner loop of `renderEmojiTable`, `for j := len(rowItems); j <
columnsPerRow; j++ { row = append(row, "") }`, by the number of turns left. -/
def fillRow : Nat → List String → List String
  | 0, row => row
  | n + 1, row => fillRow n (row ++ [""])

/-- The outer loop of `renderEmojiTable`, from the index `i` with the rows
`data` built so far. -/
def rowsFrom (w : World) (emojis : List String) (i : Nat) (data : List (List String)) :
    List (List String) :=
  if i < emojis.length then
    let stop := if i + columnsPerRow > emojis.length then emojis.length else i + columnsPerRow
    let rowItems := slice emojis i stop
    let row := [HiBlackString w "%02d" [.int ((i / columnsPerRow : Nat) + 1)] (by rfl)]
    let row := row ++ rowItems
    let row := fillRow (columnsPerRow - rowItems.length) row
    rowsFrom w emojis (i + columnsPerRow) (data ++ [row])
  else data
termination_by emojis.length - i
decreasing_by simp [columnsPerRow] at *; omega

/-- The Go function `renderEmojiTable`: the table it renders. -/
def renderEmojiTable (w : World) (emojis : List String) : Event :=
  Event.table ["#", "EMOJIS", "EMOJIS", "EMOJIS", "EMOJIS", "EMOJIS"] (rowsFrom w emojis 0 [])

/-- The first statement of Go `colorPrint` of package `color`: a newline is
added to a format that does not end in one. -/
def withNewline (format : String) : String :=
  if format.data.getLast? = some '\n' then format else format ++ "\n"

/-- Go `colorPrint` of package `color`, behind `color.Red`, `color.Yellow` and
`color.HiGreen`: the format, with its newline, is printed as it is when there
is no operand and formatted otherwise. -/
def colorPrint (format : String) (p : color.Attribute) (a : List fmt.Arg)
    (h : a ≠ [] → (fmt.Sprintf? (withNewline format) a).isSome = true) : Event :=
  Event.print [p]
    (if ha : a = [] then withNewline format else fmt.Sprintf (withNewline format) a (h ha))

/-- The Go function `main` on the argument vector `os.Args`: what it does to the
outside, in order. -/
def main (w : World) (osArgs : List String) : List Event :=
  if osArgs.length < 2 then
    [colorPrint "Error: Please provide a search term." .FgRed [] (fun h => absurd rfl h),
     Event.print [] (fmt.Sprintln ["Usage: go run main.go <search-term>"])]
  else
    let client := NewClient
    let query := strings.Join (osArgs.drop 1) " "
    let header := Event.print [.FgCyan, .Bold]
      (fmt.Sprintf "🔎 Searching EmojiDB for: '%s'...\n" [.str query] (by rfl))
    let r := Search w client query
    match r.1.2 with
    | some err => [header] ++ r.2 ++ [colorPrint "❌ Error: %v" .FgRed [.err err] (fun _ => rfl)]
    | none =>
      let emojis := r.1.1
      if emojis.length = 0 then
        [header] ++ r.2 ++
          [colorPrint "⚠️  No emojis found for '%s'." .FgYellow [.str query] (fun _ => rfl)]
      else
        [header] ++ r.2 ++
          [Event.print [] (fmt.Sprintln []), renderEmojiTable w emojis,
           colorPrint "\n✅ Done! Found %d emojis." .FgHiGreen [.int emojis.length]
            (fun _ => rfl)]

end EmojiDB

/-! ## The specification's words -/

/-- The query as the specification words it: surrounding whitespace trimmed,
then lowercased, then every space replaced by a hyphen. -/
def specFormattedQuery (caseRanges : Char → Char) (q : String) : String :=
  ⟨(((q.data.dropWhile unicode.IsSpace).rdropWhile unicode.IsSpace).map
      (unicode.ToLower caseRanges)).map fun c => if c = ' ' then '-' else c⟩

/-- A natural number zero-padded to 2 digits, as the specification words it. -/
def zeroPad2 (k : Nat) : String := if k < 10 then "0" ++ toString k else toString k

/-- A hexadecimal digit. -/
def isHexDigit (c : Char) : Bool :=
  ('0'.toNat ≤ c.toNat ∧ c.toNat ≤ '9'.toNat) ∨ ('A'.toNat ≤ c.toNat ∧ c.toNat ≤ 'F'.toNat)
    ∨ ('a'.toNat ≤ c.toNat ∧ c.toNat ≤ 'f'.toNat)

/-- Whether a text is a path segment as the specification asks for, after a
`%` and `2 - expect` hexadecimal digits of an escape: no space, no `/`, no `?`,
no `#`, and no `%` other than as the start of a two-hex-digit escape. -/
def validFrom : Nat → List Char → Bool
  | 0, [] => true
  | _ + 1, [] => false
  | 0, c :: rest =>
    if c = '%' then validFrom 2 rest
    else c ≠ ' ' && c ≠ '/' && c ≠ '?' && c ≠ '#' && validFrom 0 rest
  | expect + 1, c :: rest => isHexDigit c && validFrom expect rest

/-- The path segments the specification asks for. -/
def validSegment (s : List Char) : Bool := validFrom 0 s

/-- The text that `buildSearchURL` places between the base URL with its `/` and
the suffix `-emojis?utm_source=user_search`. -/
def EmojiDB.pathSegment (w : EmojiDB.World) (query : String) : String :=
  url.PathEscape
    (strings.ReplaceAll (strings.ToLower w.caseRanges (strings.TrimSpace query)) " " "-")

namespace EmojiDB

/-- The test of the specification on a trimmed text: non-empty and of a length
(the Go `len`, in bytes) strictly less than 5. -/
def qualifies (emoji : String) : Bool := emoji ≠ "" ∧ len emoji < 5

/-- The trimmed texts that qualify, in the order of the texts. -/
def qualifying (texts : List String) : List String :=
  (texts.map strings.TrimSpace).filter qualifies

/-- A world whose site answers every request with the given status and whose
parser reads the given document from the body; colours are off. -/
def World.serving (status : Int) (doc : goquery.Document) : World where
  caseRanges := id
  Get := fun _ => .ok ⟨status, ""⟩
  NewDocumentFromReader := fun _ => .ok doc
  wrap := fun _ s => s

/-- A document whose matched nodes have the given texts: one container with one
item for each text. -/
def docOfTexts (texts : List String) : goquery.Document :=
  ⟨[.element "div" ["emoji-ctn"] (texts.map fun t => .element "div" ["emoji"] [.text t])]⟩

end EmojiDB

namespace goquery

mutual
/-- The elements below and including a node that the two-level pattern
`.emoji-ctn > .emoji` of the specification selects, in document order: an
element with the class `emoji` whose parent has the class `emoji-ctn`.
`parentIsCtn` tells whether the parent of the node has that class. -/
def Node.matchChild (parentIsCtn : Bool) : Node → List Node
  | .text _ => []
  | .comment _ => []
  | .element tag classes children =>
    (if "emoji" ∈ classes ∧ parentIsCtn = true then [Node.element tag classes children] else [])
      ++ Node.matchChildList (decide ("emoji-ctn" ∈ classes)) children
/-- The loop of `matchChild` over the children of a node. -/
def Node.matchChildList (parentIsCtn : Bool) : List Node → List Node
  | [] => []
  | n :: ns => Node.matchChild parentIsCtn n ++ Node.matchChildList parentIsCtn ns
end

/-- The nodes of a document that the pattern `.emoji-ctn > .emoji` selects. -/
def Document.FindChild (doc : Document) : List Node := Node.matchChildList false doc.children

/-- A document with an `emoji` element that is a child of the container, one
that lies deeper inside the container, and one outside any container. -/
def nestedDocument : Document :=
  ⟨[.element "div" ["emoji-ctn"]
      [.element "div" ["emoji"] [.text "😀"],
       .element "p" [] [.element "span" ["emoji"] [.text "🙂"]]],
    .element "span" ["emoji"] [.text "🙃"]]⟩

end goquery

namespace EmojiDB

/-- Row `k` (counted from 1) of the table as the specification words it: the
label `k` zero-padded to 2 digits, in its colour, then the elements `5(k-1)` to
`min(5k, n) - 1` of the list, then empty cells up to 5 data cells. -/
def specRow (w : World) (emojis : List String) (k : Nat) : List String :=
  w.wrap .FgHiBlack (zeroPad2 k)
    :: (slice emojis (5 * (k - 1)) (min (5 * k) emojis.length)
        ++ List.replicate (5 - (min (5 * k) emojis.length - 5 * (k - 1))) "")

/-- The rows of the table as the specification words them: `ceil(n/5)` rows. -/
def specRows (w : World) (emojis : List String) : List (List String) :=
  (List.range ((emojis.length + 4) / 5)).map fun k => specRow w emojis (k + 1)

/-- The query as the specification words it: the arguments, which are `os.Args`
without the program name, joined with single spaces. -/
def specQuery (osArgs : List String) : String := " ".intercalate (osArgs.drop 1)

/-- Whether a table is rendered in a run. -/
def rendersTable (run : List Event) : Bool :=
  run.any fun e => match e with
    | .table _ _ => true
    | _ => false

/-- Whether a request is made in a run. -/
def searches (run : List Event) : Bool :=
  run.any fun e => match e with
    | .get _ => true
    | _ => false

/-- The line that announces the search of a query. -/
def announce (query : String) : Event :=
  Event.print [.FgCyan, .Bold] ("🔎 Searching EmojiDB for: '" ++ query ++ "'...\n")

/-- The data cells of the rows of a table, read row by row: every row without
its label. -/
def dataCells (rows : List (List String)) : List String := rows.flatMap List.tail

end EmojiDB

/-! ## The library functions -/

namespace strings

theorem asciiSpace_eq_IsSpace (c : Char) (h : ¬ utf8.RuneSelf ≤ c.toNat) :
    asciiSpace c = unicode.IsSpace c := by
  have h1 : c.toNat < 0x80 := by simpa [utf8.RuneSelf] using h
  have h2 : c.toNat ≤ unicode.MaxLatin1 := by simp [unicode.MaxLatin1]; omega
  simp only [asciiSpace, unicode.IsSpace, h2, if_true]
  have h3 : decide (c.toNat = 0x85) = false := by simp; omega
  have h4 : decide (c.toNat = 0xA0) = false := by simp; omega
  rw [h3, h4]; simp

theorem trimLeftFunc_eq (f : Char → Bool) (s : List Char) : trimLeftFunc f s = s.dropWhile f := by
  induction s with
  | nil => rfl
  | cons c cs ih => simp only [trimLeftFunc, List.dropWhile_cons, ih]

theorem trimRightRev_eq (f : Char → Bool) (s : List Char) : trimRightRev f s = s.dropWhile f := by
  induction s with
  | nil => rfl
  | cons c cs ih => simp only [trimRightRev, List.dropWhile_cons, ih]

theorem trimSpaceStop_eq (s : List Char) : trimSpaceStop s = s.dropWhile unicode.IsSpace := by
  induction s with
  | nil => rfl
  | cons c cs ih =>
    unfold trimSpaceStop
    by_cases h : utf8.RuneSelf ≤ c.toNat
    · rw [if_pos h, trimRightRev_eq]
    · rw [if_neg h, asciiSpace_eq_IsSpace c h, ih, List.dropWhile_cons]

theorem trimSpaceStart_eq (s : List Char) :
    trimSpaceStart s = (s.dropWhile unicode.IsSpace).rdropWhile unicode.IsSpace := by
  induction s with
  | nil => rfl
  | cons c cs ih =>
    unfold trimSpaceStart
    by_cases h : utf8.RuneSelf ≤ c.toNat
    · rw [if_pos h]
      simp only [trimFunc, trimRightFunc, trimLeftFunc_eq, trimRightRev_eq, List.rdropWhile]
    · rw [if_neg h, asciiSpace_eq_IsSpace c h, ih, trimSpaceStop_eq, List.dropWhile_cons]
      by_cases hs : unicode.IsSpace c = true
      · simp [hs]
      · simp [hs, List.rdropWhile]

theorem ToLower_eq (cr : Char → Char) (s : String) :
    ToLower cr s = ⟨s.data.map (unicode.ToLower cr)⟩ := by
  unfold ToLower
  split
  · rename_i h
    congr 1
    apply List.map_congr_left
    intro c hc
    have h1 : c.toNat < utf8.RuneSelf := by simpa using (List.all_eq_true.mp h) c hc
    have h2 : c.toNat ≤ unicode.MaxASCII := by
      simp [utf8.RuneSelf] at h1; simp [unicode.MaxASCII]; omega
    simp only [unicode.ToLower, h2, if_true]
  · rfl

theorem replaceFrom_space (s : List Char) :
    replaceFrom [' '] ['-'] 0 s = s.map fun c => if c = ' ' then '-' else c := by
  induction s with
  | nil => rfl
  | cons c cs ih =>
    by_cases h : c = ' '
    · subst h; simp [replaceFrom, startsWith, ih]
    · have h' : ¬ ' ' = c := fun e => h e.symm
      simp [replaceFrom, startsWith, ih, h, h']

theorem ReplaceAll_space (s : String) :
    ReplaceAll s " " "-" = ⟨s.data.map fun c => if c = ' ' then '-' else c⟩ := by
  have h1 : ¬ (" " : String) = "-" := by decide
  have h2 : ¬ (" " : String).data = [] := by decide
  unfold ReplaceAll
  rw [if_neg h1, if_neg h2]
  exact congrArg String.mk (replaceFrom_space s.data)

theorem formattedQuery_eq (cr : Char → Char) (q : String) :
    ReplaceAll (ToLower cr (TrimSpace q)) " " "-" = specFormattedQuery cr q := by
  rw [ReplaceAll_space, ToLower_eq]
  simp only [TrimSpace, trimSpaceStart_eq, specFormattedQuery]

end strings

namespace fmt

theorem digit_eq (d : Nat) (h : d < 10) : Char.ofNat ('0'.toNat + d) = Nat.digitChar d := by
  interval_cases d <;> rfl

theorem fmtDigits_eq_toDigitsCore (fuel : Nat) :
    ∀ (f2 u : Nat) (buf : List Char), u ≤ fuel → u < f2 →
      fmtDigits fuel u buf = Nat.toDigitsCore 10 f2 u buf := by
  induction fuel with
  | zero =>
    intro f2 u buf h1 h2
    obtain rfl : u = 0 := by omega
    obtain ⟨k, rfl⟩ : ∃ k, f2 = k + 1 := ⟨f2 - 1, by omega⟩
    simp [fmtDigits, Nat.toDigitsCore, ← digit_eq 0 (by omega)]
  | succ fuel ih =>
    intro f2 u buf h1 h2
    obtain ⟨k, rfl⟩ : ∃ k, f2 = k + 1 := ⟨f2 - 1, by omega⟩
    unfold fmtDigits Nat.toDigitsCore
    by_cases h : 10 ≤ u
    · have h3 : u / 10 ≠ 0 := by omega
      have h4 : u - u / 10 * 10 = u % 10 := by omega
      rw [if_pos h, h4, digit_eq _ (Nat.mod_lt _ (by omega))]
      simp only [h3, if_false]
      exact ih k (u / 10) _ (by omega) (by omega)
    · have h3 : u / 10 = 0 := by omega
      have h4 : u % 10 = u := by omega
      rw [if_neg h, digit_eq _ (by omega)]
      simp only [h3, h4, if_true]

theorem fmtDigits_eq (u : Nat) : fmtDigits u u [] = (toString u).data :=
  fmtDigits_eq_toDigitsCore u (u + 1) u [] (Nat.le_refl u) (Nat.lt_succ_self u)

theorem fmtDigits_length_small (u : Nat) (h : u < 10) : (fmtDigits u u []).length = 1 := by
  cases u with
  | zero => rfl
  | succ n => unfold fmtDigits; rw [if_neg (by omega)]; rfl

theorem fmtDigits_length_acc (fuel : Nat) :
    ∀ (u : Nat) (buf : List Char), buf.length < (fmtDigits fuel u buf).length := by
  induction fuel with
  | zero => intro u buf; simp [fmtDigits]
  | succ fuel ih =>
    intro u buf
    unfold fmtDigits
    split
    · exact Nat.lt_trans (by simp) (ih _ _)
    · simp

theorem fmtDigits_length_large (u : Nat) (h : 10 ≤ u) : 2 ≤ (fmtDigits u u []).length := by
  cases u with
  | zero => omega
  | succ n =>
    unfold fmtDigits
    rw [if_pos h]
    exact Nat.lt_of_le_of_lt (by simp) (fmtDigits_length_acc _ _ _)

theorem fmtInteger_plain (a : Int) : fmtInteger ⟨false, false, 0⟩ a = (toString a).data := by
  cases a with
  | ofNat m =>
    have h : ¬ (Int.ofNat m < 0) := by simp
    simp only [fmtInteger, h, decide_False, Bool.false_and, Int.natAbs_ofNat, fmtDigits_eq]
    simp
    rfl
  | negSucc m =>
    have h : (Int.negSucc m < 0) := Int.negSucc_lt_zero m
    simp only [fmtInteger, h, decide_True, Bool.false_and, fmtDigits_eq]
    simp
    rfl

theorem fmtInteger_zeroPad2 (k : Nat) : fmtInteger ⟨true, true, 2⟩ (k : Int) = (zeroPad2 k).data := by
  have h : ¬ ((k : Int) < 0) := by simp
  simp only [fmtInteger, h, decide_False, Int.natAbs_ofNat, zeroPad2]
  by_cases hk : k < 10
  · have h1 := fmtDigits_length_small k hk
    rw [fmtDigits_eq] at h1 ⊢
    simp [hk, h1]
  · have h1 := fmtDigits_length_large k (by omega)
    rw [fmtDigits_eq] at h1 ⊢
    have h2 : 2 - (toString k).length = 0 := by
      show 2 - (toString k).data.length = 0
      omega
    simp [hk, h2]

theorem Sprintf?_url (b e : String) :
    Sprintf? "%s/%s-emojis?utm_source=user_search" [.str b, .str e]
      = some (b ++ "/" ++ e ++ "-emojis?utm_source=user_search") := by
  simp [Sprintf?, doPrintf, printArg, padString]
  apply String.ext; simp

theorem Sprintf?_status (c : Int) :
    Sprintf? "failed to fetch emojis: status %d" [.int c]
      = some ("failed to fetch emojis: status " ++ toString c) := by
  simp [Sprintf?, doPrintf, printArg, fmtInteger_plain]
  apply String.ext; simp

theorem Sprintf?_label (k : Nat) : Sprintf? "%02d" [.int (k : Int)] = some (zeroPad2 k) := by
  simp [Sprintf?, doPrintf, printArg, fmtInteger_zeroPad2]

theorem Sprintf?_header (q : String) :
    Sprintf? "🔎 Searching EmojiDB for: '%s'...\n" [.str q]
      = some ("🔎 Searching EmojiDB for: '" ++ q ++ "'...\n") := by
  simp [Sprintf?, doPrintf, printArg, padString]
  apply String.ext; simp

theorem Sprintf?_done (n : Int) :
    Sprintf? "\n✅ Done! Found %d emojis.\n" [.int n]
      = some ("\n✅ Done! Found " ++ toString n ++ " emojis.\n") := by
  simp [Sprintf?, doPrintf, printArg, fmtInteger_plain]
  apply String.ext; simp

theorem Sprintf?_error (e : GoError) :
    Sprintf? "❌ Error: %v\n" [.err e] = some ("❌ Error: " ++ e.Error ++ "\n") := by
  simp [Sprintf?, doPrintf, printArg, padString]
  apply String.ext; simp

theorem Sprintf?_none (q : String) :
    Sprintf? "⚠️  No emojis found for '%s'.\n" [.str q]
      = some ("⚠️  No emojis found for '" ++ q ++ "'.\n") := by
  simp [Sprintf?, doPrintf, printArg, padString]
  apply String.ext; simp

theorem Sprintf_eq (format : String) (a : List Arg) (s : String)
    (h : (Sprintf? format a).isSome = true) (hs : Sprintf? format a = some s) :
    Sprintf format a h = s := by
  unfold Sprintf
  simp [hs]

end fmt

namespace url

theorem toNat_ofNat_byte (c : Nat) (h : c < 256) : (Char.ofNat c).toNat = c := by
  have hv : c.isValidChar := Or.inl (by omega)
  simp only [Char.ofNat, hv, dif_pos, Char.ofNatAux, Char.toNat, UInt32.toNat]
  rfl

theorem shouldEscape_of_ge (c : Nat) (h : 127 ≤ c) : shouldEscape c = true := by
  unfold shouldEscape
  simp
  omega

theorem lt_of_not_shouldEscape (c : Nat) (h : shouldEscape c = false) : c < 127 := by
  by_contra hc
  rw [shouldEscape_of_ge c (by omega)] at h
  exact Bool.noConfusion h

theorem upperhex_isHexDigit (i : Nat) (h : i < 16) : isHexDigit (upperhex.getD i '?') = true := by
  interval_cases i <;> decide

theorem validSegment_escapeByte (c : Nat) (rest : List Char) (h : c < 256) :
    validSegment (escapeByte c ++ rest) = validSegment rest := by
  unfold escapeByte
  by_cases he : shouldEscape c = true
  · have h1 : c >>> 4 < 16 := by rw [Nat.shiftRight_eq_div_pow]; omega
    have h2 : c &&& 15 < 16 := Nat.and_lt_two_pow c (by decide : 15 < 2 ^ 4)
    rw [if_pos he]
    show validSegment ('%' :: upperhex.getD (c >>> 4) '?' :: upperhex.getD (c &&& 15) '?' :: rest)
      = validSegment rest
    simp only [validSegment, validFrom, if_true, upperhex_isHexDigit _ h1,
      upperhex_isHexDigit _ h2, Bool.true_and]
  · have he' : shouldEscape c = false := by simpa using he
    have hn := toNat_ofNat_byte c h
    have hne : ∀ d : Char, shouldEscape d.toNat = true → Char.ofNat c ≠ d := by
      intro d hd e
      rw [← e, hn, he'] at hd
      exact Bool.noConfusion hd
    have e1 := hne '%' (by decide)
    have e2 := hne ' ' (by decide)
    have e3 := hne '/' (by decide)
    have e4 := hne '?' (by decide)
    have e5 := hne '#' (by decide)
    rw [if_neg he]
    show validSegment (Char.ofNat c :: rest) = validSegment rest
    simp only [validSegment, validFrom, if_neg e1]
    simp [e2, e3, e4, e5]

theorem or_ge (a x : Nat) (h : a.testBit 7 = true) : 0x80 ≤ (a ||| x) := by
  have : (a ||| x).testBit 7 = true := by rw [Nat.testBit_or, h]; rfl
  exact Nat.testBit_implies_ge this

theorem or_and_lt (a x : Nat) (h : a < 256) : (a ||| ((x % 256) &&& 0x3F)) < 256 :=
  Nat.or_lt_two_pow (n := 8) h (Nat.and_lt_two_pow _ (by decide : 0x3F < 2 ^ 8))

theorem or_mod_lt (a x : Nat) (h : a < 256) : (a ||| (x % 256)) < 256 :=
  Nat.or_lt_two_pow (n := 8) h (Nat.mod_lt _ (by decide))

theorem EncodeRune_lt (r : Char) : ∀ b ∈ utf8.EncodeRune r, b < 256 := by
  intro b hb
  unfold utf8.EncodeRune at hb
  simp only at hb
  split at hb
  · simp at hb; omega
  · split at hb
    · simp at hb
      rcases hb with rfl | rfl
      · exact or_mod_lt _ _ (by decide)
      · exact or_and_lt _ _ (by decide)
    · split at hb
      · simp at hb
        rcases hb with rfl | rfl | rfl
        · exact or_mod_lt _ _ (by decide)
        · exact or_and_lt _ _ (by decide)
        · exact or_and_lt _ _ (by decide)
      · simp at hb
        rcases hb with rfl | rfl | rfl | rfl
        · exact or_mod_lt _ _ (by decide)
        · exact or_and_lt _ _ (by decide)
        · exact or_and_lt _ _ (by decide)
        · exact or_and_lt _ _ (by decide)

theorem bytes_lt (s : List Char) : ∀ b ∈ s.flatMap utf8.EncodeRune, b < 256 := by
  intro b hb
  obtain ⟨r, _, hr⟩ := List.mem_flatMap.mp hb
  exact EncodeRune_lt r b hr

theorem validSegment_flatMap (bs : List Nat) (h : ∀ b ∈ bs, b < 256) :
    validSegment (bs.flatMap escapeByte) = true := by
  induction bs with
  | nil => rfl
  | cons b bs ih =>
    rw [List.flatMap_cons, validSegment_escapeByte b _ (h b (List.mem_cons_self _ _))]
    exact ih fun x hx => h x (List.mem_cons_of_mem _ hx)

/-- A code point none of whose bytes is escaped is a single byte, and escaping
that byte gives the code point back. -/
theorem escape_plain (r : Char) (h : (utf8.EncodeRune r).all (fun c => !shouldEscape c) = true) :
    (utf8.EncodeRune r).flatMap escapeByte = [r] := by
  have hlt : r.toNat < 0x80 := by
    by_contra hge
    have hhead : ∃ a x rest, a.testBit 7 = true ∧ utf8.EncodeRune r = (a ||| x) :: rest := by
      unfold utf8.EncodeRune
      simp only [hge, if_false]
      split
      · exact ⟨0xC0, _, _, by decide, rfl⟩
      · split
        · exact ⟨0xE0, _, _, by decide, rfl⟩
        · exact ⟨0xF0, _, _, by decide, rfl⟩
    obtain ⟨a, x, rest, ha, he⟩ := hhead
    rw [he] at h
    simp only [List.all_cons, Bool.and_eq_true, Bool.not_eq_true'] at h
    have := lt_of_not_shouldEscape _ h.1
    have := or_ge a x ha
    omega
  have he : utf8.EncodeRune r = [r.toNat] := by
    unfold utf8.EncodeRune
    simp only [hlt, if_true]
  rw [he] at h ⊢
  simp only [List.all_cons, List.all_nil, Bool.and_true, Bool.not_eq_true'] at h
  simp [escapeByte, h]

theorem PathEscape_eq (s : String) : PathEscape s = ⟨(bytes s).flatMap escapeByte⟩ := by
  unfold PathEscape
  split
  · rename_i h
    apply String.ext
    show s.data = (bytes s).flatMap escapeByte
    unfold bytes at h ⊢
    generalize s.data = l at h ⊢
    induction l with
    | nil => rfl
    | cons r rs ih =>
      rw [List.flatMap_cons, List.all_append, Bool.and_eq_true] at h
      rw [List.flatMap_cons, List.flatMap_append, escape_plain r h.1, ← ih h.2]
      rfl
  · rfl

theorem validSegment_PathEscape (s : String) : validSegment (PathEscape s).data = true := by
  rw [PathEscape_eq]
  exact validSegment_flatMap _ (bytes_lt s.data)

end url

namespace EmojiDB

theorem buildSearchURL_eq (w : World) (c : EmojiClient) (q : String) :
    buildSearchURL w c q
      = c.BaseURL ++ "/" ++ pathSegment w q ++ "-emojis?utm_source=user_search" := by
  unfold buildSearchURL pathSegment
  exact fmt.Sprintf_eq _ _ _ _ (fmt.Sprintf?_url _ _)

theorem validFrom_mem (n : Nat) (s : List Char) (h : validFrom n s = true) :
    ∀ c ∈ s, c ≠ ' ' ∧ c ≠ '/' ∧ c ≠ '?' ∧ c ≠ '#' := by
  induction s generalizing n with
  | nil => intro c hc; cases hc
  | cons a rest ih =>
    intro c hc
    cases n with
    | zero =>
      simp only [validFrom] at h
      split at h
      · rename_i ha
        rcases List.mem_cons.mp hc with rfl | hc
        · subst ha; decide
        · exact ih 2 h c hc
      · simp only [Bool.and_eq_true, decide_eq_true_eq] at h
        rcases List.mem_cons.mp hc with rfl | hc
        · exact ⟨h.1.1.1.1, h.1.1.1.2, h.1.1.2, h.1.2⟩
        · exact ih 0 h.2 c hc
    | succ k =>
      simp only [validFrom, Bool.and_eq_true] at h
      rcases List.mem_cons.mp hc with rfl | hc
      · have hx := h.1
        refine ⟨?_, ?_, ?_, ?_⟩ <;> (intro e; subst e; revert hx; decide)
      · exact ih k h.2 c hc

theorem pathSegment_of_blank (w : World) (q : String)
    (h : q.data.all unicode.IsSpace = true) : pathSegment w q = "" := by
  have h1 : q.data.dropWhile unicode.IsSpace = [] := by
    rw [List.dropWhile_eq_nil_iff]
    exact fun x hx => List.all_eq_true.mp h x hx
  have h2 : specFormattedQuery w.caseRanges q = "" := by
    simp only [specFormattedQuery, h1]
    rfl
  unfold pathSegment
  rw [strings.formattedQuery_eq, h2]
  rfl

/-- C1: for every base URL and every query, `buildSearchURL` returns the base
URL, a `/`, the percent-escaped query and `-emojis?utm_source=user_search`,
where the query is trimmed of surrounding whitespace, then lowercased, then has
every space replaced by a hyphen; for `Happy Face` the path segment is
`happy-face` and the URL ends with `/happy-face-emojis?utm_source=user_search`. -/
theorem buildSearchURL_template (w : World) (c : EmojiClient) (q : String) :
    buildSearchURL w c q
        = c.BaseURL ++ "/" ++ url.PathEscape (specFormattedQuery w.caseRanges q)
            ++ "-emojis?utm_source=user_search"
      ∧ url.PathEscape (specFormattedQuery w.caseRanges "Happy Face") = "happy-face"
      ∧ buildSearchURL w c "Happy Face"
        = c.BaseURL ++ "/happy-face-emojis?utm_source=user_search" := by
  have key : ∀ q, buildSearchURL w c q
      = c.BaseURL ++ "/" ++ url.PathEscape (specFormattedQuery w.caseRanges q)
          ++ "-emojis?utm_source=user_search" := by
    intro q
    rw [buildSearchURL_eq, pathSegment, strings.formattedQuery_eq]
  have hf : url.PathEscape (specFormattedQuery w.caseRanges "Happy Face") = "happy-face" := rfl
  refine ⟨key q, hf, ?_⟩
  rw [key, hf]
  apply String.ext
  simp

/-- C7: for every query, the empty one included, `buildSearchURL` returns the
base URL, a `/`, a segment and `-emojis?utm_source=user_search`, and the segment
has no space, no `/`, no `?`, no `#` and no `%` other than as the start of a
two-hex-digit escape; for the empty query and for a query of whitespace only
the segment is empty. -/
theorem buildSearchURL_valid_segment (w : World) (c : EmojiClient) (q : String) :
    buildSearchURL w c q
        = c.BaseURL ++ "/" ++ pathSegment w q ++ "-emojis?utm_source=user_search"
      ∧ validSegment (pathSegment w q).data = true
      ∧ (∀ x ∈ (pathSegment w q).data, x ≠ ' ' ∧ x ≠ '/' ∧ x ≠ '?' ∧ x ≠ '#')
      ∧ (q.data.all unicode.IsSpace = true →
          buildSearchURL w c q = c.BaseURL ++ "/-emojis?utm_source=user_search")
      ∧ buildSearchURL w c "" = c.BaseURL ++ "/-emojis?utm_source=user_search" := by
  have hv : validSegment (pathSegment w q).data = true := url.validSegment_PathEscape _
  have hb : ∀ q : String, q.data.all unicode.IsSpace = true →
      buildSearchURL w c q = c.BaseURL ++ "/-emojis?utm_source=user_search" := by
    intro q h
    rw [buildSearchURL_eq, pathSegment_of_blank w q h]
    apply String.ext
    simp
  exact ⟨buildSearchURL_eq w c q, hv, validFrom_mem 0 _ hv, hb q, hb "" rfl⟩

theorem eachEmoji_eq (emojis : List String) (text : String) :
    eachEmoji emojis text
      = if emojis.length ≥ maxEmojis then emojis
        else if qualifies (strings.TrimSpace text) = true then emojis ++ [strings.TrimSpace text]
        else emojis := by
  unfold eachEmoji qualifies
  simp only [decide_eq_true_eq]

theorem foldl_eachEmoji (texts : List String) :
    ∀ acc : List String, acc.length ≤ maxEmojis →
      texts.foldl eachEmoji acc = (acc ++ qualifying texts).take maxEmojis := by
  induction texts with
  | nil =>
    intro acc h
    simp [qualifying, List.take_of_length_le h]
  | cons t ts ih =>
    intro acc h
    rw [List.foldl_cons, eachEmoji_eq]
    by_cases hfull : acc.length ≥ maxEmojis
    · rw [if_pos hfull, ih acc h]
      have hlen : acc.length = maxEmojis := Nat.le_antisymm h hfull
      rw [List.take_append_of_le_length (Nat.le_of_eq hlen.symm),
        List.take_append_of_le_length (Nat.le_of_eq hlen.symm)]
    · rw [if_neg hfull]
      by_cases hq : qualifies (strings.TrimSpace t) = true
      · rw [if_pos hq, ih _ (by simp; omega)]
        simp [qualifying, hq]
      · rw [if_neg hq, ih acc h]
        simp [qualifying, hq]

theorem collect_eq (texts : List String) : collect texts = (qualifying texts).take maxEmojis := by
  unfold collect
  rw [foldl_eachEmoji texts [] (Nat.zero_le _)]
  rfl

theorem Search_transport (w : World) (c : EmojiClient) (q : String) (e : GoError)
    (hget : w.Get (buildSearchURL w c q) = .error e) :
    Search w c q = (([], some e), [Event.get (buildSearchURL w c q)]) := by
  unfold Search
  simp only [hget]

theorem Search_status (w : World) (c : EmojiClient) (q : String) (resp : Response)
    (hget : w.Get (buildSearchURL w c q) = .ok resp) (hstatus : resp.StatusCode ≠ 200) :
    Search w c q
      = (([], some ⟨"failed to fetch emojis: status " ++ toString resp.StatusCode⟩),
          [Event.get (buildSearchURL w c q)]) := by
  unfold Search
  simp only [hget, hstatus, ne_eq, not_false_eq_true, if_true, fmt.Errorf]
  rw [fmt.Sprintf_eq _ _ _ _ (fmt.Sprintf?_status _)]

theorem Search_parse (w : World) (c : EmojiClient) (q : String) (resp : Response) (e : GoError)
    (hget : w.Get (buildSearchURL w c q) = .ok resp) (hstatus : resp.StatusCode = 200)
    (hparse : w.NewDocumentFromReader resp.Body = .error e) :
    Search w c q = (([], some e), [Event.get (buildSearchURL w c q)]) := by
  unfold Search
  simp only [hget, hstatus, hparse]
  simp

theorem Search_found (w : World) (c : EmojiClient) (q : String) (resp : Response)
    (doc : goquery.Document) (hget : w.Get (buildSearchURL w c q) = .ok resp)
    (hstatus : resp.StatusCode = 200) (hparse : w.NewDocumentFromReader resp.Body = .ok doc) :
    Search w c q
      = ((collect (doc.Find.map goquery.Node.Text), none), [Event.get (buildSearchURL w c q)]) := by
  unfold Search
  simp only [hget, hstatus, hparse]
  simp

theorem Search_ok (w : World) (c : EmojiClient) (q : String) (resp : Response)
    (doc : goquery.Document) (hget : w.Get (buildSearchURL w c q) = .ok resp)
    (hstatus : resp.StatusCode = 200) (hparse : w.NewDocumentFromReader resp.Body = .ok doc) :
    (Search w c q).1 = (collect (doc.Find.map goquery.Node.Text), none) := by
  rw [Search_found w c q resp doc hget hstatus hparse]

/-- C2: when at most 50 of the texts of the matched nodes qualify, the list that
`Search` returns is the list of the trimmed texts that are non-empty and of
length below 5, in the order of the document and with duplicates kept; among
the texts `😀`, six `😀` in a row, the empty text and a text of whitespace only
the first alone is kept, and without a matched node the list is empty and
there is no error. -/
theorem Search_keeps_qualifying (texts : List String)
    (h : (qualifying texts).length ≤ maxEmojis) :
    collect texts = qualifying texts
      ∧ (∀ (w : World) (c : EmojiClient) (q : String) (resp : Response) (doc : goquery.Document),
          w.Get (buildSearchURL w c q) = .ok resp → resp.StatusCode = 200 →
          w.NewDocumentFromReader resp.Body = .ok doc →
          doc.Find.map goquery.Node.Text = texts →
          (Search w c q).1 = (qualifying texts, none))
      ∧ qualifying ["😀", "😀😀😀😀😀😀", "", " \t\n ", "😀"] = ["😀", "😀"]
      ∧ (∀ (w : World) (c : EmojiClient) (q : String) (resp : Response) (doc : goquery.Document),
          w.Get (buildSearchURL w c q) = .ok resp → resp.StatusCode = 200 →
          w.NewDocumentFromReader resp.Body = .ok doc → doc.Find = [] →
          (Search w c q).1 = ([], none)) := by
  have hc : collect texts = qualifying texts := by
    rw [collect_eq, List.take_of_length_le h]
  refine ⟨hc, ?_, by decide, ?_⟩
  · intro w c q resp doc hget hstatus hparse htexts
    rw [Search_ok w c q resp doc hget hstatus hparse, htexts, hc]
  · intro w c q resp doc hget hstatus hparse hfind
    rw [Search_ok w c q resp doc hget hstatus hparse, hfind]
    rfl

/-- C2 at a document with the four kinds of text. -/
theorem Search_keeps_qualifying_witness :
    (qualifying ["😀", "😀😀😀😀😀😀", "", " \t\n ", "😀"]).length ≤ maxEmojis
      ∧ collect ["😀", "😀😀😀😀😀😀", "", " \t\n ", "😀"] = ["😀", "😀"]
      ∧ (Search (World.serving 200 (docOfTexts ["😀", "😀😀😀😀😀😀", "", " \t\n ", "😀"]))
          NewClient "grin").1 = (["😀", "😀"], none) :=
  ⟨by decide,
   (Search_keeps_qualifying ["😀", "😀😀😀😀😀😀", "", " \t\n ", "😀"] (by decide)).1.trans
     (by decide),
   ((Search_keeps_qualifying ["😀", "😀😀😀😀😀😀", "", " \t\n ", "😀"] (by decide)).2.1
     (World.serving 200 (docOfTexts ["😀", "😀😀😀😀😀😀", "", " \t\n ", "😀"])) NewClient "grin"
     ⟨200, ""⟩ (docOfTexts ["😀", "😀😀😀😀😀😀", "", " \t\n ", "😀"]) rfl rfl rfl
     (by decide)).trans (by decide)⟩

theorem matchAllList_items (texts : List String) :
    (goquery.Node.matchAllList true
        (texts.map fun t => goquery.Node.element "div" ["emoji"] [.text t])).map goquery.Node.Text
      = texts := by
  induction texts with
  | nil => rfl
  | cons t ts ih =>
    have ht : goquery.Node.Text (.element "div" ["emoji"] [.text t]) = t := by
      simp [goquery.Node.Text, goquery.Node.TextAll]
    simp only [List.map_cons, goquery.Node.matchAllList, goquery.Node.matchAll, List.map_append, ih]
    simp [ht]

theorem docOfTexts_Find (texts : List String) :
    (docOfTexts texts).Find.map goquery.Node.Text = texts := by
  have h := matchAllList_items texts
  simp only [docOfTexts, goquery.Document.Find, goquery.Node.matchAllList, goquery.Node.matchAll]
  simpa using h

/-- C3: on every page that is fetched and parsed, the list that `Search` itself
returns is made of the first 50 qualifying texts of the matched nodes, in the
order of the document: it never has more than 50 entries, and it has exactly 50
when more than 50 texts qualify; a page of 75 valid matched nodes makes `Search`
return a list of length exactly 50, the first 50 of them. -/
theorem Search_caps_at_fifty (texts : List String) :
    (collect texts).length ≤ 50
      ∧ collect texts = (qualifying texts).take 50
      ∧ (50 < (qualifying texts).length → (collect texts).length = 50)
      ∧ (∀ (w : World) (c : EmojiClient) (q : String), (Search w c q).1.1.length ≤ 50)
      ∧ collect (List.replicate 75 "😀") = List.replicate 50 "😀"
      ∧ (collect (List.replicate 75 "😀")).length = 50
      ∧ (∀ (w : World) (c : EmojiClient) (q : String) (resp : Response) (doc : goquery.Document),
          w.Get (buildSearchURL w c q) = .ok resp → resp.StatusCode = 200 →
          w.NewDocumentFromReader resp.Body = .ok doc →
          doc.Find.map goquery.Node.Text = texts →
          (Search w c q).1 = ((qualifying texts).take 50, none)
            ∧ (50 < (qualifying texts).length → (Search w c q).1.1.length = 50)
            ∧ (∀ i, i < 50 → (Search w c q).1.1[i]? = (qualifying texts)[i]?))
      ∧ (∀ (c : EmojiClient) (q : String),
          (Search (World.serving 200 (docOfTexts (List.replicate 75 "😀"))) c q).1
              = (List.replicate 50 "😀", none)
            ∧ (Search (World.serving 200 (docOfTexts (List.replicate 75 "😀"))) c q).1.1.length
              = 50) := by
  have hc : ∀ t, collect t = (qualifying t).take 50 := collect_eq
  have hl : ∀ t, (collect t).length ≤ 50 := by
    intro t; rw [hc, List.length_take]; exact Nat.min_le_left _ _
  have h75 : collect (List.replicate 75 "😀") = List.replicate 50 "😀" := by
    rw [hc]
    have hq : qualifies (strings.TrimSpace "😀") = true := by decide
    have ht : strings.TrimSpace "😀" = "😀" := by decide
    simp only [qualifying, List.map_replicate, List.filter_replicate, hq, if_true, ht,
      List.take_replicate]
    rfl
  have hs75 : ∀ (c : EmojiClient) (q : String),
      (Search (World.serving 200 (docOfTexts (List.replicate 75 "😀"))) c q).1
        = (List.replicate 50 "😀", none) := by
    intro c q
    rw [Search_found (World.serving 200 (docOfTexts (List.replicate 75 "😀"))) c q ⟨200, ""⟩
      (docOfTexts (List.replicate 75 "😀")) rfl rfl rfl, docOfTexts_Find, h75]
  refine ⟨hl texts, hc texts, ?_, ?_, h75, by rw [h75]; rfl, ?_, ?_⟩
  · intro h
    rw [hc, List.length_take]
    omega
  · intro w c q
    cases hget : w.Get (buildSearchURL w c q) with
    | error e => rw [Search_transport w c q e hget]; simp
    | ok resp =>
      by_cases hstatus : resp.StatusCode = 200
      · cases hparse : w.NewDocumentFromReader resp.Body with
        | error e => rw [Search_parse w c q resp e hget hstatus hparse]; simp
        | ok doc => rw [Search_found w c q resp doc hget hstatus hparse]; exact hl _
      · rw [Search_status w c q resp hget hstatus]; simp
  · intro w c q resp doc hget hstatus hparse htexts
    rw [Search_found w c q resp doc hget hstatus hparse, htexts, hc]
    refine ⟨rfl, ?_, ?_⟩
    · intro h
      show ((qualifying texts).take 50).length = 50
      rw [List.length_take]; omega
    · intro i hi
      show ((qualifying texts).take 50)[i]? = (qualifying texts)[i]?
      rw [List.getElem?_take, if_pos hi]
  · intro c q
    refine ⟨hs75 c q, ?_⟩
    rw [hs75 c q]
    rfl

theorem length_le_len (s : List Char) : s.length ≤ (s.map utf8.RuneLen).sum := by
  induction s with
  | nil => simp
  | cons c cs ih =>
    have h : 1 ≤ utf8.RuneLen c := by unfold utf8.RuneLen; split_ifs <;> omega
    simp only [List.map_cons, List.sum_cons, List.length_cons]
    omega

theorem RuneCount_le_len (s : String) : utf8.RuneCountInString s ≤ len s := length_le_len s.data

/-- C6: `Search` returns an error exactly when the GET fails, the status code
is not 200 or the document cannot be parsed; for a status code `c` other than
200 the error has the message `failed to fetch emojis: status c`, the error of
the GET and the error of the parser are returned as they are, and with an error
the list returned is nil. -/
theorem Search_error_iff (w : World) (c : EmojiClient) (q : String) :
    ((Search w c q).1.2 ≠ none ↔
        (∃ e, w.Get (buildSearchURL w c q) = .error e)
          ∨ ∃ resp, w.Get (buildSearchURL w c q) = .ok resp
              ∧ (resp.StatusCode ≠ 200 ∨ ∃ e, w.NewDocumentFromReader resp.Body = .error e))
      ∧ (∀ resp, w.Get (buildSearchURL w c q) = .ok resp → resp.StatusCode ≠ 200 →
          (Search w c q).1.2
            = some ⟨"failed to fetch emojis: status " ++ toString resp.StatusCode⟩)
      ∧ (∀ e, w.Get (buildSearchURL w c q) = .error e → (Search w c q).1.2 = some e)
      ∧ (∀ resp e, w.Get (buildSearchURL w c q) = .ok resp → resp.StatusCode = 200 →
          w.NewDocumentFromReader resp.Body = .error e → (Search w c q).1.2 = some e)
      ∧ ((Search w c q).1.2 ≠ none → (Search w c q).1.1 = [])
      ∧ (Search (World.serving 404 (docOfTexts ["😀"])) NewClient "grin").1
          = ([], some ⟨"failed to fetch emojis: status 404"⟩) := by
  refine ⟨?_, ?_, ?_, ?_, ?_, by decide⟩
  · cases hget : w.Get (buildSearchURL w c q) with
    | error e => rw [Search_transport w c q e hget]; simp
    | ok resp =>
      by_cases hstatus : resp.StatusCode = 200
      · cases hparse : w.NewDocumentFromReader resp.Body with
        | error e => rw [Search_parse w c q resp e hget hstatus hparse]; simp [hparse]
        | ok doc => rw [Search_found w c q resp doc hget hstatus hparse]; simp [hstatus, hparse]
      · rw [Search_status w c q resp hget hstatus]; simp [hstatus]
  · intro resp hget hstatus
    rw [Search_status w c q resp hget hstatus]
  · intro e hget
    rw [Search_transport w c q e hget]
  · intro resp e hget hstatus hparse
    rw [Search_parse w c q resp e hget hstatus hparse]
  · cases hget : w.Get (buildSearchURL w c q) with
    | error e => rw [Search_transport w c q e hget]; simp
    | ok resp =>
      by_cases hstatus : resp.StatusCode = 200
      · cases hparse : w.NewDocumentFromReader resp.Body with
        | error e => rw [Search_parse w c q resp e hget hstatus hparse]; simp
        | ok doc => rw [Search_found w c q resp doc hget hstatus hparse]; simp
      · rw [Search_status w c q resp hget hstatus]; simp

/-- C8, as stated, fails: the text of two `😀` is not empty and has 2
characters, fewer than 5, and it is not accepted, because it has 8 bytes. -/
theorem eachEmoji_rejects_two_characters :
    ¬ (eachEmoji [] "😀😀" = [] ++ [strings.TrimSpace "😀😀"] ↔
        strings.TrimSpace "😀😀" ≠ ""
          ∧ utf8.RuneCountInString (strings.TrimSpace "😀😀") < 5) := by
  decide

/-- C8, amended: a matched node reached before the cap of 50 has its trimmed
text accepted exactly when the text is non-empty and has fewer than 5 bytes;
every entry of the list is non-empty and under 5 bytes, hence under 5
characters, and below the cap every non-empty text under 5 bytes is kept. -/
theorem eachEmoji_accepts_iff (emojis : List String) (text : String)
    (h : emojis.length < maxEmojis) :
    (eachEmoji emojis text = emojis ++ [strings.TrimSpace text] ↔
        strings.TrimSpace text ≠ "" ∧ len (strings.TrimSpace text) < 5)
      ∧ (¬ (strings.TrimSpace text ≠ "" ∧ len (strings.TrimSpace text) < 5) →
          eachEmoji emojis text = emojis)
      ∧ (∀ texts : List String, ∀ e ∈ collect texts,
          e ≠ "" ∧ len e < 5 ∧ utf8.RuneCountInString e < 5)
      ∧ (∀ texts : List String, (qualifying texts).length ≤ maxEmojis → ∀ t ∈ texts,
          strings.TrimSpace t ≠ "" → len (strings.TrimSpace t) < 5 →
          strings.TrimSpace t ∈ collect texts) := by
  have hq : ∀ e, qualifies e = true ↔ e ≠ "" ∧ len e < 5 := by
    intro e; simp [qualifies]
  have hnf : ¬ emojis.length ≥ maxEmojis := by omega
  refine ⟨?_, ?_, ?_, ?_⟩
  · rw [eachEmoji_eq, if_neg hnf, ← hq]
    by_cases hx : qualifies (strings.TrimSpace text) = true
    · simp [hx]
    · simp [hx]
  · intro hx
    rw [eachEmoji_eq, if_neg hnf, if_neg (by rwa [hq])]
  · intro texts e he
    rw [collect_eq] at he
    have hmem := List.mem_of_mem_take he
    simp only [qualifying, List.mem_filter] at hmem
    have := (hq e).mp hmem.2
    exact ⟨this.1, this.2, Nat.lt_of_le_of_lt (RuneCount_le_len e) this.2⟩
  · intro texts hcap t ht h1 h2
    rw [collect_eq, List.take_of_length_le hcap]
    simp only [qualifying, List.mem_filter, List.mem_map]
    exact ⟨⟨t, ht, rfl⟩, (hq _).mpr ⟨h1, h2⟩⟩

/-- C8, amended, at the text of one `😀` after two entries. -/
theorem eachEmoji_accepts_iff_witness :
    [":)", "😀"].length < maxEmojis
      ∧ (eachEmoji [":)", "😀"] " 😀\n" = [":)", "😀"] ++ [strings.TrimSpace " 😀\n"] ↔
          strings.TrimSpace " 😀\n" ≠ "" ∧ len (strings.TrimSpace " 😀\n") < 5)
      ∧ eachEmoji [":)", "😀"] " 😀\n" = [":)", "😀", "😀"] :=
  ⟨by decide, (eachEmoji_accepts_iff [":)", "😀"] " 😀\n" (by decide)).1, by decide⟩

/-- C9 fails on the code: the selector of `Search` is `.emoji-ctn .emoji`, with
the descendant combinator, so an `emoji` element that lies deeper inside the
container is considered, where the pattern `.emoji-ctn > .emoji` considers the
child of the container alone. -/
theorem Find_matches_deeper_elements :
    goquery.nestedDocument.Find.map goquery.Node.Text = ["😀", "🙂"]
      ∧ goquery.nestedDocument.FindChild.map goquery.Node.Text = ["😀"]
      ∧ (Search (World.serving 200 goquery.nestedDocument) NewClient "grin").1
          = (["😀", "🙂"], none) := by
  decide

theorem fillRow_eq (n : Nat) : ∀ row : List String, fillRow n row = row ++ List.replicate n "" := by
  induction n with
  | zero => intro row; simp [fillRow]
  | succ n ih =>
    intro row
    rw [fillRow, ih, List.replicate_succ, List.append_assoc]
    rfl

theorem HiBlackString_label (w : World) (n : Int) (k : Nat) (hn : n = (k : Int)) (h) :
    HiBlackString w "%02d" [.int n] h = w.wrap .FgHiBlack (zeroPad2 k) := by
  subst hn
  unfold HiBlackString
  rw [fmt.Sprintf_eq _ _ _ _ (fmt.Sprintf?_label k)]

theorem slice_length (s : List String) (i j : Nat) : (slice s i j).length = min j s.length - i := by
  simp [slice]

theorem rowsFrom_step (w : World) (emojis : List String) (j : Nat) (data : List (List String))
    (h : 5 * j < emojis.length) :
    rowsFrom w emojis (5 * j) data
      = rowsFrom w emojis (5 * (j + 1)) (data ++ [specRow w emojis (j + 1)]) := by
  rw [rowsFrom, if_pos h]
  have hstop : (if 5 * j + columnsPerRow > emojis.length then emojis.length
      else 5 * j + columnsPerRow) = min (5 * (j + 1)) emojis.length := by
    simp only [columnsPerRow]
    split <;> omega
  have hdiv : 5 * j / columnsPerRow = j := by simp [columnsPerRow]
  have hcast : (((5 * j / columnsPerRow : Nat) : Int) + 1) = ((j + 1 : Nat) : Int) := by
    rw [hdiv]; push_cast; rfl
  simp only [hstop]
  have hrow : fillRow (columnsPerRow - (slice emojis (5 * j) (min (5 * (j + 1)) emojis.length)).length)
      ([HiBlackString w "%02d" [.int (((5 * j / columnsPerRow : Nat) : Int) + 1)] (by rfl)]
        ++ slice emojis (5 * j) (min (5 * (j + 1)) emojis.length))
      = specRow w emojis (j + 1) := by
    rw [fillRow_eq, slice_length, HiBlackString_label w _ (j + 1) hcast]
    have : min (min (5 * (j + 1)) emojis.length) emojis.length = min (5 * (j + 1)) emojis.length := by
      omega
    rw [this]
    simp only [specRow, columnsPerRow, Nat.add_sub_cancel]
    rfl
  rw [hrow]
  rfl

theorem rowsFrom_done (w : World) (emojis : List String) (i : Nat) (data : List (List String))
    (h : ¬ i < emojis.length) : rowsFrom w emojis i data = data := by
  rw [rowsFrom, if_neg h]

theorem rowsFrom_eq_range (w : World) (emojis : List String) (m : Nat) :
    ∀ (j : Nat) (data : List (List String)), (emojis.length + 4) / 5 - j = m →
      rowsFrom w emojis (5 * j) data
        = data ++ (List.range' j m).map fun k => specRow w emojis (k + 1) := by
  induction m with
  | zero =>
    intro j data h
    rw [rowsFrom_done w emojis _ data (by omega)]
    simp
  | succ m ih =>
    intro j data h
    rw [rowsFrom_step w emojis j data (by omega), ih (j + 1) _ (by omega)]
    simp [List.range'_succ]

theorem rowsFrom_eq_specRows (w : World) (emojis : List String) :
    rowsFrom w emojis 0 [] = specRows w emojis := by
  have := rowsFrom_eq_range w emojis _ 0 [] rfl
  simpa [specRows, List.range_eq_range'] using this

theorem specRow_length (w : World) (emojis : List String) (k : Nat) (h1 : 1 ≤ k)
    (h2 : 5 * (k - 1) < emojis.length) : (specRow w emojis k).length = 6 := by
  simp only [specRow, List.length_cons, List.length_append, List.length_replicate, slice_length]
  omega

theorem specRows_getElem? (w : World) (emojis : List String) (k : Nat) (h1 : 1 ≤ k)
    (h2 : k ≤ (emojis.length + 4) / 5) :
    (specRows w emojis)[k - 1]? = some (specRow w emojis k) := by
  unfold specRows
  rw [List.getElem?_map, List.getElem?_range (by omega)]
  simp only [Option.map_some']
  congr 2
  omega

/-- C4: the data rows built by `renderEmojiTable` for a list of length `n`
number `ceil(n/5)`, none for the empty list; every row has 6 cells; row `k`,
counted from 1, is the label `k` zero-padded to 2 digits, in its colour, then
the elements `5(k-1)` to `min(5k, n) - 1` of the list, then empty cells up to 5
data cells; a row before the last has no padding.  For 12 strings there are 3
rows, of 5, 5 and 2 elements, the last 3 cells of the third are empty, and the
labels are `01`, `02`, `03`, as they stand when colours are off. -/
theorem renderEmojiTable_rows (w : World) (emojis : List String) :
    renderEmojiTable w emojis
        = Event.table ["#", "EMOJIS", "EMOJIS", "EMOJIS", "EMOJIS", "EMOJIS"]
            (rowsFrom w emojis 0 [])
      ∧ (rowsFrom w emojis 0 []).length = (emojis.length + 4) / 5
      ∧ rowsFrom w [] 0 [] = []
      ∧ (∀ row ∈ rowsFrom w emojis 0 [], row.length = 6)
      ∧ (∀ k, 1 ≤ k → k ≤ (rowsFrom w emojis 0 []).length →
          (rowsFrom w emojis 0 [])[k - 1]?
            = some (w.wrap .FgHiBlack (zeroPad2 k)
                :: (slice emojis (5 * (k - 1)) (min (5 * k) emojis.length)
                    ++ List.replicate (5 - (min (5 * k) emojis.length - 5 * (k - 1))) "")))
      ∧ (∀ k, 1 ≤ k → k < (rowsFrom w emojis 0 []).length →
          (rowsFrom w emojis 0 [])[k - 1]?
            = some (w.wrap .FgHiBlack (zeroPad2 k) :: slice emojis (5 * (k - 1)) (5 * k))
          ∧ (slice emojis (5 * (k - 1)) (5 * k)).length = 5)
      ∧ (∀ e1 e2 e3 e4 e5 e6 e7 e8 e9 e10 e11 e12 : String,
          rowsFrom w [e1, e2, e3, e4, e5, e6, e7, e8, e9, e10, e11, e12] 0 []
            = [[w.wrap .FgHiBlack "01", e1, e2, e3, e4, e5],
               [w.wrap .FgHiBlack "02", e6, e7, e8, e9, e10],
               [w.wrap .FgHiBlack "03", e11, e12, "", "", ""]])
      ∧ (∀ e1 e2 e3 e4 e5 e6 e7 e8 e9 e10 e11 e12 : String,
          rowsFrom (World.serving 200 ⟨[]⟩) [e1, e2, e3, e4, e5, e6, e7, e8, e9, e10, e11, e12] 0 []
            = [["01", e1, e2, e3, e4, e5], ["02", e6, e7, e8, e9, e10],
               ["03", e11, e12, "", "", ""]]) := by
  have hlen : (rowsFrom w emojis 0 []).length = (emojis.length + 4) / 5 := by
    rw [rowsFrom_eq_specRows]; simp [specRows]
  have h12 : ∀ (w : World) (e1 e2 e3 e4 e5 e6 e7 e8 e9 e10 e11 e12 : String),
      rowsFrom w [e1, e2, e3, e4, e5, e6, e7, e8, e9, e10, e11, e12] 0 []
        = [[w.wrap .FgHiBlack "01", e1, e2, e3, e4, e5],
           [w.wrap .FgHiBlack "02", e6, e7, e8, e9, e10],
           [w.wrap .FgHiBlack "03", e11, e12, "", "", ""]] := by
    intro w e1 e2 e3 e4 e5 e6 e7 e8 e9 e10 e11 e12
    have z1 : zeroPad2 (0 + 1) = "01" := by decide
    have z2 : zeroPad2 (1 + 1) = "02" := by decide
    have z3 : zeroPad2 (2 + 1) = "03" := by decide
    have hr : List.range ((12 + 4) / 5) = [0, 1, 2] := by decide
    rw [rowsFrom_eq_specRows]
    simp only [specRows, List.length_cons, List.length_nil, hr, List.map_cons, List.map_nil,
      specRow, z1, z2, z3, slice]
    rfl
  refine ⟨rfl, hlen, ?_, ?_, ?_, ?_, h12 w, h12 (World.serving 200 ⟨[]⟩)⟩
  · rw [rowsFrom_eq_specRows]; rfl
  · intro row hrow
    rw [rowsFrom_eq_specRows] at hrow
    simp only [specRows, List.mem_map, List.mem_range] at hrow
    obtain ⟨k, hk, rfl⟩ := hrow
    exact specRow_length w emojis (k + 1) (by omega) (by simp; omega)
  · intro k h1 h2
    rw [hlen] at h2
    rw [rowsFrom_eq_specRows, specRows_getElem? w emojis k h1 h2]
    rfl
  · intro k h1 h2
    rw [hlen] at h2
    have hmin : min (5 * k) emojis.length = 5 * k := by omega
    have hz : 5 - (5 * k - 5 * (k - 1)) = 0 := by omega
    refine ⟨?_, ?_⟩
    · rw [rowsFrom_eq_specRows, specRows_getElem? w emojis k h1 (by omega)]
      simp only [specRow, hmin, hz, List.replicate_zero, List.append_nil]
    · rw [slice_length]; omega

theorem Join_eq_intercalate (elems : List String) (sep : String) :
    strings.Join elems sep = sep.intercalate elems := by
  have hgo : ∀ (es : List String) (acc : String),
      es.foldl (fun b s => b ++ sep ++ s) acc = String.intercalate.go acc sep es := by
    intro es
    induction es with
    | nil => intro acc; rfl
    | cons e es ih => intro acc; rw [List.foldl_cons, ih]; rfl
  match elems with
  | [] => rfl
  | [e] => rfl
  | e :: e2 :: es => exact hgo (e2 :: es) e

theorem colorPrint_error (e : GoError) (h) :
    colorPrint "❌ Error: %v" .FgRed [.err e] h
      = Event.print [.FgRed] ("❌ Error: " ++ e.Error ++ "\n") := by
  unfold colorPrint
  rw [dif_neg (by simp)]
  exact congrArg _ (fmt.Sprintf_eq _ _ _ _ (fmt.Sprintf?_error e))

theorem colorPrint_none (q : String) (h) :
    colorPrint "⚠️  No emojis found for '%s'." .FgYellow [.str q] h
      = Event.print [.FgYellow] ("⚠️  No emojis found for '" ++ q ++ "'.\n") := by
  unfold colorPrint
  rw [dif_neg (by simp)]
  exact congrArg _ (fmt.Sprintf_eq _ _ _ _ (fmt.Sprintf?_none q))

theorem colorPrint_done (n : Nat) (h) :
    colorPrint "\n✅ Done! Found %d emojis." .FgHiGreen [.int (n : Int)] h
      = Event.print [.FgHiGreen] ("\n✅ Done! Found " ++ toString n ++ " emojis.\n") := by
  unfold colorPrint
  rw [dif_neg (by simp)]
  exact congrArg _ (fmt.Sprintf_eq _ _ _ _ (fmt.Sprintf?_done n))

theorem main_usage (w : World) (osArgs : List String) (h : osArgs.length < 2) :
    main w osArgs
      = [Event.print [.FgRed] "Error: Please provide a search term.\n",
         Event.print [] "Usage: go run main.go <search-term>\n"] := by
  unfold main
  rw [if_pos h]
  rfl

/-- The line that announces the search. -/
theorem main_header (q : String) (h) :
    Event.print [.FgCyan, .Bold] (fmt.Sprintf "🔎 Searching EmojiDB for: '%s'...\n" [.str q] h)
      = Event.print [.FgCyan, .Bold] ("🔎 Searching EmojiDB for: '" ++ q ++ "'...\n") :=
  congrArg _ (fmt.Sprintf_eq _ _ _ _ (fmt.Sprintf?_header q))

theorem main_error (w : World) (osArgs : List String) (h : ¬ osArgs.length < 2) (err : GoError)
    (he : (Search w NewClient (strings.Join (osArgs.drop 1) " ")).1.2 = some err) :
    main w osArgs
      = [Event.print [.FgCyan, .Bold]
            ("🔎 Searching EmojiDB for: '" ++ strings.Join (osArgs.drop 1) " " ++ "'...\n")]
          ++ (Search w NewClient (strings.Join (osArgs.drop 1) " ")).2
          ++ [Event.print [.FgRed] ("❌ Error: " ++ err.Error ++ "\n")] := by
  unfold main
  rw [if_neg h]
  simp only [he, main_header, colorPrint_error]

theorem main_empty (w : World) (osArgs : List String) (h : ¬ osArgs.length < 2)
    (he : (Search w NewClient (strings.Join (osArgs.drop 1) " ")).1.2 = none)
    (hl : (Search w NewClient (strings.Join (osArgs.drop 1) " ")).1.1 = []) :
    main w osArgs
      = [Event.print [.FgCyan, .Bold]
            ("🔎 Searching EmojiDB for: '" ++ strings.Join (osArgs.drop 1) " " ++ "'...\n")]
          ++ (Search w NewClient (strings.Join (osArgs.drop 1) " ")).2
          ++ [Event.print [.FgYellow]
            ("⚠️  No emojis found for '" ++ strings.Join (osArgs.drop 1) " " ++ "'.\n")] := by
  unfold main
  rw [if_neg h]
  simp only [he, hl, main_header, colorPrint_none, List.length_nil, if_true]

theorem main_found (w : World) (osArgs : List String) (h : ¬ osArgs.length < 2)
    (he : (Search w NewClient (strings.Join (osArgs.drop 1) " ")).1.2 = none)
    (hl : (Search w NewClient (strings.Join (osArgs.drop 1) " ")).1.1 ≠ []) :
    main w osArgs
      = [Event.print [.FgCyan, .Bold]
            ("🔎 Searching EmojiDB for: '" ++ strings.Join (osArgs.drop 1) " " ++ "'...\n")]
          ++ (Search w NewClient (strings.Join (osArgs.drop 1) " ")).2
          ++ [Event.print [] "\n",
              renderEmojiTable w (Search w NewClient (strings.Join (osArgs.drop 1) " ")).1.1,
              Event.print [.FgHiGreen]
                ("\n✅ Done! Found "
                  ++ toString (Search w NewClient (strings.Join (osArgs.drop 1) " ")).1.1.length
                  ++ " emojis.\n")] := by
  have hl' : ¬ (Search w NewClient (strings.Join (osArgs.drop 1) " ")).1.1.length = 0 := by
    rwa [List.length_eq_zero]
  unfold main
  rw [if_neg h]
  simp only [he, hl', main_header, colorPrint_done, if_false]
  rfl

theorem Search_events (w : World) (c : EmojiClient) (q : String) :
    (Search w c q).2 = [Event.get (buildSearchURL w c q)] := by
  cases hget : w.Get (buildSearchURL w c q) with
  | error e => rw [Search_transport w c q e hget]
  | ok resp =>
    by_cases hstatus : resp.StatusCode = 200
    · cases hparse : w.NewDocumentFromReader resp.Body with
      | error e => rw [Search_parse w c q resp e hget hstatus hparse]
      | ok doc => rw [Search_found w c q resp doc hget hstatus hparse]
    · rw [Search_status w c q resp hget hstatus]

/-- C5: the driver ends in one of four ways.  With no argument it prints the
usage message and makes no request.  Otherwise it searches the arguments
joined with single spaces, with one request, and then: on an error of the
search it prints the error and renders no table; on an empty list it prints a
warning and renders no table; otherwise it renders the table and then prints
the success message with the length of the list.  A table is rendered exactly
when there is an argument, the search succeeds and the list is not empty. -/
theorem main_outcomes (w : World) (osArgs : List String) :
    (osArgs.length < 2 →
        main w osArgs
          = [Event.print [.FgRed] "Error: Please provide a search term.\n",
             Event.print [] "Usage: go run main.go <search-term>\n"])
      ∧ (2 ≤ osArgs.length → ∀ err,
          (Search w NewClient (specQuery osArgs)).1.2 = some err →
          main w osArgs
            = [announce (specQuery osArgs),
               Event.get (buildSearchURL w NewClient (specQuery osArgs)),
               Event.print [.FgRed] ("❌ Error: " ++ err.Error ++ "\n")])
      ∧ (2 ≤ osArgs.length →
          (Search w NewClient (specQuery osArgs)).1.2 = none →
          (Search w NewClient (specQuery osArgs)).1.1 = [] →
          main w osArgs
            = [announce (specQuery osArgs),
               Event.get (buildSearchURL w NewClient (specQuery osArgs)),
               Event.print [.FgYellow]
                 ("⚠️  No emojis found for '" ++ specQuery osArgs ++ "'.\n")])
      ∧ (2 ≤ osArgs.length →
          (Search w NewClient (specQuery osArgs)).1.2 = none →
          (Search w NewClient (specQuery osArgs)).1.1 ≠ [] →
          main w osArgs
            = [announce (specQuery osArgs),
               Event.get (buildSearchURL w NewClient (specQuery osArgs)),
               Event.print [] "\n",
               renderEmojiTable w (Search w NewClient (specQuery osArgs)).1.1,
               Event.print [.FgHiGreen]
                 ("\n✅ Done! Found "
                   ++ toString (Search w NewClient (specQuery osArgs)).1.1.length
                   ++ " emojis.\n")])
      ∧ (rendersTable (main w osArgs) = true ↔
          2 ≤ osArgs.length ∧ (Search w NewClient (specQuery osArgs)).1.2 = none
            ∧ (Search w NewClient (specQuery osArgs)).1.1 ≠ [])
      ∧ (searches (main w osArgs) = true ↔ 2 ≤ osArgs.length) := by
  have hq : strings.Join (osArgs.drop 1) " " = specQuery osArgs := Join_eq_intercalate _ _
  have h1 := main_usage w osArgs
  have h2 := main_error w osArgs
  have h3 := main_empty w osArgs
  have h4 := main_found w osArgs
  rw [hq, Search_events] at h2 h3 h4
  have e2 : 2 ≤ osArgs.length → ∀ err,
      (Search w NewClient (specQuery osArgs)).1.2 = some err →
      main w osArgs
        = [announce (specQuery osArgs),
           Event.get (buildSearchURL w NewClient (specQuery osArgs)),
           Event.print [.FgRed] ("❌ Error: " ++ err.Error ++ "\n")] :=
    fun h err he => h2 (by omega) err he
  have e3 : 2 ≤ osArgs.length →
      (Search w NewClient (specQuery osArgs)).1.2 = none →
      (Search w NewClient (specQuery osArgs)).1.1 = [] →
      main w osArgs
        = [announce (specQuery osArgs),
           Event.get (buildSearchURL w NewClient (specQuery osArgs)),
           Event.print [.FgYellow]
             ("⚠️  No emojis found for '" ++ specQuery osArgs ++ "'.\n")] :=
    fun h he hl => h3 (by omega) he hl
  have e4 : 2 ≤ osArgs.length →
      (Search w NewClient (specQuery osArgs)).1.2 = none →
      (Search w NewClient (specQuery osArgs)).1.1 ≠ [] →
      main w osArgs
        = [announce (specQuery osArgs),
           Event.get (buildSearchURL w NewClient (specQuery osArgs)),
           Event.print [] "\n",
           renderEmojiTable w (Search w NewClient (specQuery osArgs)).1.1,
           Event.print [.FgHiGreen]
             ("\n✅ Done! Found "
               ++ toString (Search w NewClient (specQuery osArgs)).1.1.length
               ++ " emojis.\n")] :=
    fun h he hl => h4 (by omega) he hl
  refine ⟨h1, e2, e3, e4, ?_, ?_⟩
  · by_cases hlen : osArgs.length < 2
    · rw [h1 hlen]
      simp [rendersTable]
      omega
    · have hge : 2 ≤ osArgs.length := by omega
      cases he : (Search w NewClient (specQuery osArgs)).1.2 with
      | some err => rw [e2 hge err he]; simp [rendersTable, announce]
      | none =>
        by_cases hl : (Search w NewClient (specQuery osArgs)).1.1 = []
        · rw [e3 hge he hl]; simp [rendersTable, announce, hl]
        · rw [e4 hge he hl]; simp [rendersTable, announce, hl, hge, renderEmojiTable]
  · by_cases hlen : osArgs.length < 2
    · rw [h1 hlen]
      simp [searches]
      omega
    · have hge : 2 ≤ osArgs.length := by omega
      cases he : (Search w NewClient (specQuery osArgs)).1.2 with
      | some err => rw [e2 hge err he]; simp [searches, announce, hge]
      | none =>
        by_cases hl : (Search w NewClient (specQuery osArgs)).1.1 = []
        · rw [e3 hge he hl]; simp [searches, announce, hge]
        · rw [e4 hge he hl]; simp [searches, announce, hge, renderEmojiTable]

theorem slice_append_drop (s : List String) (i : Nat) (h : i + 5 ≤ s.length) :
    slice s i (i + 5) ++ s.drop (i + 5) = s.drop i := by
  unfold slice
  have h1 : i ≤ (s.take (i + 5)).length := by simp; omega
  rw [← List.drop_append_of_le_length h1, List.take_append_drop]

theorem slice_to_end (s : List String) (i : Nat) : slice s i s.length = s.drop i := by
  unfold slice
  rw [List.take_length]

theorem dataCells_range (w : World) (emojis : List String) (m : Nat) :
    ∀ j, (emojis.length + 4) / 5 - j = m →
      dataCells ((List.range' j m).map fun k => specRow w emojis (k + 1))
        = emojis.drop (5 * j)
            ++ List.replicate (if m = 0 then 0 else 5 * ((emojis.length + 4) / 5) - emojis.length) "" := by
  induction m with
  | zero =>
    intro j h
    have : emojis.drop (5 * j) = [] := List.drop_eq_nil_of_le (by omega)
    simp [dataCells, this]
  | succ m ih =>
    intro j h
    have ih' := ih (j + 1) (by omega)
    simp only [dataCells] at ih' ⊢
    rw [List.range'_succ, List.map_cons, List.flatMap_cons, ih']
    simp only [specRow, List.tail_cons, Nat.add_sub_cancel, Nat.succ_ne_zero, if_false]
    by_cases hm : m = 0
    · have hmin : min (5 * (j + 1)) emojis.length = emojis.length := by omega
      have hdrop : emojis.drop (5 * (j + 1)) = [] := List.drop_eq_nil_of_le (by omega)
      have hpad : 5 - (emojis.length - 5 * j) = 5 * ((emojis.length + 4) / 5) - emojis.length := by
        omega
      simp only [hm, if_true, hmin, hdrop, slice_to_end, hpad, List.replicate_zero,
        List.append_nil, List.nil_append]
    · have hmin : min (5 * (j + 1)) emojis.length = 5 * j + 5 := by omega
      have hpad : 5 - (5 * j + 5 - 5 * j) = 0 := by omega
      have hmul : 5 * (j + 1) = 5 * j + 5 := by omega
      simp only [hm, if_false, hmin, hpad, List.replicate_zero, List.append_nil]
      rw [hmul, ← List.append_assoc, slice_append_drop emojis (5 * j) (by omega)]

theorem dataCells_specRows (w : World) (emojis : List String) :
    dataCells (specRows w emojis)
      = emojis ++ List.replicate (5 * ((emojis.length + 4) / 5) - emojis.length) "" := by
  have h := dataCells_range w emojis _ 0 rfl
  rw [← List.range_eq_range'] at h
  simp only [Nat.sub_zero, Nat.mul_zero, List.drop_zero] at h
  unfold specRows
  rw [h]
  by_cases hz : (emojis.length + 4) / 5 = 0
  · have : emojis.length = 0 := by omega
    simp [hz, this]
  · simp [hz]

theorem collect_mem (texts : List String) : ∀ e ∈ collect texts, e ≠ "" := by
  intro e he
  rw [collect_eq] at he
  have hmem := List.mem_of_mem_take he
  simp only [qualifying, List.mem_filter, qualifies, decide_eq_true_eq] at hmem
  exact hmem.2.1

theorem collect_length (texts : List String) : (collect texts).length ≤ maxEmojis := by
  rw [collect_eq, List.length_take]
  exact Nat.min_le_left _ _

theorem Search_list (w : World) (c : EmojiClient) (q : String) :
    (Search w c q).1.1 = [] ∨ ∃ texts, (Search w c q).1.1 = collect texts := by
  cases hget : w.Get (buildSearchURL w c q) with
  | error e => rw [Search_transport w c q e hget]; exact Or.inl rfl
  | ok resp =>
    by_cases hstatus : resp.StatusCode = 200
    · cases hparse : w.NewDocumentFromReader resp.Body with
      | error e => rw [Search_parse w c q resp e hget hstatus hparse]; exact Or.inl rfl
      | ok doc => rw [Search_found w c q resp doc hget hstatus hparse]; exact Or.inr ⟨_, rfl⟩
    · rw [Search_status w c q resp hget hstatus]; exact Or.inl rfl

/-- C10: for a list of at most 50 entries, none of them empty, as `Search`
returns them, the table has at most 10 rows; its data cells, read row by row,
are the list followed by the padding cells, so that a data cell is empty
exactly when it is a padding cell, the non-empty data cells are the list, and
their number is the count that the success message of the driver prints. -/
theorem table_cells_are_the_list (w : World) (emojis : List String)
    (hcap : emojis.length ≤ maxEmojis) (hne : ∀ e ∈ emojis, e ≠ "") :
    (rowsFrom w emojis 0 []).length ≤ 10
      ∧ dataCells (rowsFrom w emojis 0 [])
          = emojis ++ List.replicate (5 * (rowsFrom w emojis 0 []).length - emojis.length) ""
      ∧ (∀ i, i < (dataCells (rowsFrom w emojis 0 [])).length →
          ((dataCells (rowsFrom w emojis 0 []))[i]? = some "" ↔ emojis.length ≤ i))
      ∧ (dataCells (rowsFrom w emojis 0 [])).filter (fun cell => cell ≠ "") = emojis
      ∧ ((dataCells (rowsFrom w emojis 0 [])).filter (fun cell => cell ≠ "")).length
          = emojis.length
      ∧ (∀ (w : World) (c : EmojiClient) (q : String),
          (Search w c q).1.1.length ≤ maxEmojis ∧ ∀ e ∈ (Search w c q).1.1, e ≠ "")
      ∧ (∀ osArgs : List String, 2 ≤ osArgs.length →
          (Search w NewClient (specQuery osArgs)).1 = (emojis, none) → emojis ≠ [] →
          main w osArgs
            = [announce (specQuery osArgs),
               Event.get (buildSearchURL w NewClient (specQuery osArgs)),
               Event.print [] "\n",
               Event.table ["#", "EMOJIS", "EMOJIS", "EMOJIS", "EMOJIS", "EMOJIS"]
                 (rowsFrom w emojis 0 []),
               Event.print [.FgHiGreen]
                 ("\n✅ Done! Found "
                   ++ toString ((dataCells (rowsFrom w emojis 0 [])).filter
                        (fun cell => cell ≠ "")).length
                   ++ " emojis.\n")]) := by
  have hlen : (rowsFrom w emojis 0 []).length = (emojis.length + 4) / 5 := by
    rw [rowsFrom_eq_specRows]; simp [specRows]
  have hcells : dataCells (rowsFrom w emojis 0 [])
      = emojis ++ List.replicate (5 * (rowsFrom w emojis 0 []).length - emojis.length) "" := by
    rw [hlen, rowsFrom_eq_specRows, dataCells_specRows]
  have hfilter : (dataCells (rowsFrom w emojis 0 [])).filter (fun cell => cell ≠ "") = emojis := by
    rw [hcells, List.filter_append]
    have h1 : emojis.filter (fun cell => cell ≠ "") = emojis :=
      List.filter_eq_self.mpr fun e he => by simpa using hne e he
    have h2 : ∀ n : Nat, (List.replicate n "").filter (fun cell => decide (cell ≠ "")) = [] := by
      intro n; simp
    rw [h1, h2, List.append_nil]
  refine ⟨?_, hcells, ?_, hfilter, by rw [hfilter], ?_, ?_⟩
  · rw [hlen]; simp only [maxEmojis] at hcap; omega
  · intro i hi
    rw [hcells] at hi ⊢
    by_cases hin : i < emojis.length
    · rw [List.getElem?_append_left hin, List.getElem?_eq_getElem hin]
      have := hne _ (List.getElem_mem hin)
      constructor
      · intro h; exact absurd (Option.some.inj h) this
      · intro h; omega
    · have hge : emojis.length ≤ i := by omega
      rw [List.getElem?_append_right hge]
      simp only [List.length_append, List.length_replicate] at hi
      rw [List.getElem?_replicate]
      simp only [hge, iff_true]
      rw [if_pos (by omega)]
  · intro w c q
    rcases Search_list w c q with h | ⟨texts, h⟩
    · rw [h]; simp
    · rw [h]; exact ⟨collect_length texts, collect_mem texts⟩
  · intro osArgs hge hs hnil
    have he : (Search w NewClient (specQuery osArgs)).1.2 = none := by rw [hs]
    have hl : (Search w NewClient (specQuery osArgs)).1.1 = emojis := by rw [hs]
    have hq : strings.Join (osArgs.drop 1) " " = specQuery osArgs := Join_eq_intercalate _ _
    have := main_found w osArgs (by omega)
    rw [hq, Search_events] at this
    rw [this he (by rw [hl]; exact hnil), hl, hfilter]
    rfl

/-- C10 at a run of the driver on `Happy Face` against a page of three
emojis. -/
theorem table_cells_are_the_list_witness :
    ["😀", "🙂", "😎"].length ≤ maxEmojis
      ∧ (∀ e ∈ ["😀", "🙂", "😎"], e ≠ "")
      ∧ (dataCells (rowsFrom (World.serving 200 (docOfTexts ["😀", "🙂", "😎"]))
            ["😀", "🙂", "😎"] 0 [])).filter (fun cell => cell ≠ "") = ["😀", "🙂", "😎"]
      ∧ main (World.serving 200 (docOfTexts ["😀", "🙂", "😎"])) ["emoji", "Happy", "Face"]
          = [announce "Happy Face",
             Event.get "https://emojidb.org/happy-face-emojis?utm_source=user_search",
             Event.print [] "\n",
             Event.table ["#", "EMOJIS", "EMOJIS", "EMOJIS", "EMOJIS", "EMOJIS"]
               [["01", "😀", "🙂", "😎", "", ""]],
             Event.print [.FgHiGreen] "\n✅ Done! Found 3 emojis.\n"] :=
  ⟨by decide, by decide,
   (table_cells_are_the_list (World.serving 200 (docOfTexts ["😀", "🙂", "😎"]))
      ["😀", "🙂", "😎"] (by decide) (by decide)).2.2.2.1,
   ((table_cells_are_the_list (World.serving 200 (docOfTexts ["😀", "🙂", "😎"]))
      ["😀", "🙂", "😎"] (by decide) (by decide)).2.2.2.2.2.2
      ["emoji", "Happy", "Face"] (by decide) (by decide) (by decide)).trans
     (by rw [rowsFrom_eq_specRows]; decide)⟩

end EmojiDB
